import Mathlib

/-!
# Peggy bridge: transaction commands, simulation tests and attestation quorum

A shallow embedding of

* `x/peggy/client/cli/tx.go`: the command tree `GetTxCmd` with its three
  subcommands `send-to-eth`, `build-batch` and `set-orchestrator-address`;
* `tests/simulation/sim_test.go`: the loops of `TestAppStateDeterminism` and
  `TestAppImportExport`;
* the attestation ledger of the design document (section 4.2), for the quorum
  property of section 8.

Calls that leave the repository (client context, keyring, bech32, coin parsing,
protobuf, Keccak, ECDSA, the account query, `ValidateBasic`, broadcasting) are the
fields of an environment `Env`; every command is a pure function of the
environment, the flag set and the arguments, and returns the error value of the
Go function together with the trace of the observable steps it took.
-/

namespace Peggy

/-! ## Go values -/

/-- A byte slice. -/
abbrev Bytes := List Nat

/-- The UTF-8 encoding of one code point. -/
def utf8EncodeNat (c : Nat) : Bytes :=
  if c < 0x80 then [c]
  else if c < 0x800 then [0xC0 + c / 64, 0x80 + c % 64]
  else if c < 0x10000 then [0xE0 + c / 4096, 0x80 + (c / 64) % 64, 0x80 + c % 64]
  else [0xF0 + c / 262144, 0x80 + (c / 4096) % 64, 0x80 + (c / 64) % 64, 0x80 + c % 64]

/-- The bytes of a Go string: `[]byte(s)`. -/
def goBytes (s : String) : Bytes :=
  s.toList.flatMap (fun c => utf8EncodeNat c.toNat)

/-- Go `len(s)` of a string: its length in bytes. -/
def len (s : String) : Nat := (goBytes s).length

/-- A Go `error` value that is not nil. `sdkWrap` is `sdkerrors.Wrap(cause, description)`,
`fmtWrap` is `fmt.Errorf(prefix + ": %w", cause)`. -/
inductive GoError where
  | base (text : String)
  | sdkWrap (cause : GoError) (description : String)
  | fmtWrap (pfx : String) (cause : GoError)
deriving DecidableEq, Repr

deriving instance DecidableEq for Except

/-- The text returned by the `Error()` method. -/
def GoError.Error : GoError → String
  | .base text => text
  | .sdkWrap cause description => description ++ ": " ++ cause.Error
  | .fmtWrap pfx cause => pfx ++ ": " ++ cause.Error

/-! ## `encoding/hex`, `hexutil` and `common.Address` -/

/-- Errors of `encoding/hex`. -/
inductive HexError where
  | invalidByte (b : Nat)
  | errLength
deriving DecidableEq, Repr

/-- The value of a hexadecimal digit, `none` for any other byte. -/
def fromHexChar (c : Nat) : Option Nat :=
  if 48 ≤ c ∧ c ≤ 57 then some (c - 48)
  else if 97 ≤ c ∧ c ≤ 102 then some (c - 97 + 10)
  else if 65 ≤ c ∧ c ≤ 70 then some (c - 65 + 10)
  else none

/-- Go `hex.DecodeString` on the bytes of its argument: the bytes decoded before the first
problem, and the problem if there is one. -/
def hexDecodeString : Bytes → Bytes × Option HexError
  | [] => ([], none)
  | [p] =>
    match fromHexChar p with
    | none => ([], some (.invalidByte p))
    | some _ => ([], some .errLength)
  | p :: q :: rest =>
    match fromHexChar p, fromHexChar q with
    | none, _ => ([], some (.invalidByte p))
    | some _, none => ([], some (.invalidByte q))
    | some a, some b => ((a * 16 + b) :: (hexDecodeString rest).1, (hexDecodeString rest).2)

/-- Whether the bytes start with `0x` or `0X`. -/
def has0xPrefix (s : Bytes) : Bool :=
  match s with
  | 48 :: x :: _ => x == 120 || x == 88
  | _ => false

def ErrEmptyString : GoError := .base "empty hex string"
def ErrSyntax : GoError := .base "invalid hex string"
def ErrMissingPrefix : GoError := .base "hex string without 0x prefix"
def ErrOddLength : GoError := .base "hex string of odd length"

/-- The error mapping of `hexutil`. -/
def mapError : HexError → GoError
  | .invalidByte _ => ErrSyntax
  | .errLength => ErrOddLength

/-- Go-ethereum `hexutil.Decode`: decodes a hex string with 0x prefix. -/
def hexutilDecode (input : String) : Except GoError Bytes :=
  let bz := goBytes input
  if bz.length = 0 then .error ErrEmptyString
  else if !has0xPrefix bz then .error ErrMissingPrefix
  else
    match hexDecodeString (bz.drop 2) with
    | (b, none) => .ok b
    | (_, some err) => .error (mapError err)

/-- The length of an Ethereum address in bytes. -/
def AddressLength : Nat := 20

/-- Go-ethereum `common.FromHex`: the prefix is optional, an odd number of digits is padded
with a leading zero, and a decoding error is dropped (`Hex2Bytes`). -/
def FromHex (s : String) : Bytes :=
  let bz := goBytes s
  let bz := if has0xPrefix bz then bz.drop 2 else bz
  let bz := if bz.length % 2 = 1 then 48 :: bz else bz
  (hexDecodeString bz).1

/-- Go-ethereum `common.BytesToAddress`: longer input is cropped from the left, shorter
input is padded with zeroes on the left. -/
def BytesToAddress (b : Bytes) : Bytes :=
  let b := if b.length > AddressLength then b.drop (b.length - AddressLength) else b
  List.replicate (AddressLength - b.length) 0 ++ b

/-- Go-ethereum `common.HexToAddress`. -/
def HexToAddress (s : String) : Bytes := BytesToAddress (FromHex s)

/-- Go-ethereum `common.IsHexAddress`: forty hexadecimal digits after an optional prefix. -/
def IsHexAddress (s : String) : Bool :=
  let bz := goBytes s
  let bz := if has0xPrefix bz then bz.drop 2 else bz
  bz.length == 2 * AddressLength && bz.all (fun c => (fromHexChar c).isSome)

/-! ## Messages, flags and the environment of a command -/

/-- An account address (`sdk.AccAddress`). -/
abbrev AccAddress := Bytes

/-- A coin (`sdk.Coin`). -/
structure Coin where
  denom : String
  amount : Nat
deriving DecidableEq, Repr

/-- The sign message of `set-orchestrator-address`
(`types.SetOrchestratorAddressesSignMsg`). -/
structure SetOrchestratorAddressesSignMsg where
  ValidatorAddress : String
  Nonce : Nat
deriving DecidableEq, Repr

/-- The messages the commands construct, each constructor standing for the call of the
constructor function of `x/peggy/types` with the same arguments in the same order:
`types.NewMsgSendToEth`, `types.NewMsgRequestBatch`, `types.NewMsgSetOrchestratorAddress`. -/
inductive Msg where
  | NewMsgSendToEth (sender : AccAddress) (destAddress : String) (send bridgeFee : Coin)
  | NewMsgRequestBatch (orchestrator : AccAddress) (denom : String)
  | NewMsgSetOrchestratorAddress (sender orchestrator : AccAddress) (ethAddr : Bytes)
      (ethSig : Bytes)
deriving DecidableEq, Repr

/-- The client context of a command; `fromAddress` is what `GetFromAddress` returns. -/
structure ClientCtx where
  fromAddress : AccAddress
  chainID : String
deriving DecidableEq, Repr

def ClientCtx.GetFromAddress (ctx : ClientCtx) : AccAddress := ctx.fromAddress

/-- An account as unpacked from the answer of the account query. -/
structure Account where
  address : AccAddress
  accountNumber : Nat
  sequence : Nat
deriving DecidableEq, Repr

def Account.GetSequence (acc : Account) : Nat := acc.sequence

/-- The flags of a command with their current values (`pflag.FlagSet`). -/
abbrev FlagSet := List (String × String)

/-- Flag lookup: `FlagSet.GetString`, an error for a flag that is not defined. -/
def FlagSet.GetString (fs : FlagSet) (name : String) : Except GoError String :=
  match fs.lookup name with
  | some v => .ok v
  | none => .error (.base ("flag accessed but not defined: " ++ name))

/-- Assignment of a defined flag: `FlagSet.Set`, an error for a flag that is not defined. -/
def FlagSet.Set (fs : FlagSet) (name value : String) : Except GoError FlagSet :=
  match fs.lookup name with
  | some _ => .ok (fs.map (fun kv => if kv.1 = name then (kv.1, value) else kv))
  | none => .error (.base ("no such flag -" ++ name))

def FlagOrchEthSig : String := "orch-eth-sig"
def FlagEthPrivKey : String := "eth-priv-key"
/-- The flag `flags.FlagFrom` of the SDK. -/
def FlagFrom : String := "from"

/-- The calls that leave the file. -/
structure Env where
  /-- `client.GetClientTxContext`: reads the flags (among them `--from`) and the keyring. -/
  getClientTxContext : FlagSet → Except GoError ClientCtx
  /-- `sdk.AccAddressFromBech32`. -/
  accAddressFromBech32 : String → Except GoError AccAddress
  /-- `sdk.ParseCoinNormalized`. -/
  parseCoinNormalized : String → Except GoError Coin
  /-- `AccAddress.String`. -/
  accAddressString : AccAddress → String
  /-- `ValAddress.String`, of the same bytes. -/
  valAddressString : AccAddress → String
  /-- `ethcrypto.ToECDSA`. -/
  toECDSA : Bytes → Except GoError Nat
  /-- The query `Account` of the auth module, by address. -/
  queryAccount : ClientCtx → String → Except GoError Bytes
  /-- `Codec.UnpackAny` into an account. -/
  unpackAny : ClientCtx → Bytes → Except GoError Account
  /-- `Codec.MustMarshal` of the sign message. -/
  marshalSignMsg : SetOrchestratorAddressesSignMsg → Bytes
  /-- `ethcrypto.Keccak256Hash`. -/
  keccak256Hash : Bytes → Bytes
  /-- `types.NewEthereumSignature`, of a digest and a private key. -/
  newEthereumSignature : Bytes → Nat → Except GoError Bytes
  /-- `ValidateBasic` of a message: `none` is nil. -/
  validateBasic : Msg → Option GoError
  /-- `tx.GenerateOrBroadcastTxCLI`: `none` is nil. -/
  generateOrBroadcastTxCLI : ClientCtx → FlagSet → Msg → Option GoError

/-- The observable steps of a command. -/
inductive Event where
  | flagSet (name value : String)
  | flagRead (name : String)
  | clientContext (fs : FlagSet)
  | accountQuery (address : String)
  | sign (digest : Bytes) (privKey : Nat)
  | built (msg : Msg)
  | validated (msg : Msg)
  | broadcast (msg : Msg)
deriving DecidableEq, Repr

/-- What a command leaves behind: the steps taken, in order, and the returned value or
error. -/
structure Outcome (α : Type) where
  events : List Event
  result : Except GoError α
deriving DecidableEq, Repr

namespace Outcome

def ret {α : Type} (a : α) : Outcome α := ⟨[], .ok a⟩

/-- Go `return err`. -/
def fail {α : Type} (e : GoError) : Outcome α := ⟨[], .error e⟩

/-- Sequencing: the second part runs only when the first returned no error, and its steps
follow those of the first. -/
def andThen {α β : Type} (x : Outcome α) (f : α → Outcome β) : Outcome β :=
  match x.result with
  | .ok a => ⟨x.events ++ (f a).events, (f a).result⟩
  | .error e => ⟨x.events, .error e⟩

instance : Monad Outcome where
  pure := ret
  bind := andThen

/-- Record a step. -/
def emit (e : Event) : Outcome Unit := ⟨[e], .ok ()⟩

/-- The Go idiom `v, err := f(); if err != nil { return err }`. -/
def try_ {α : Type} (r : Except GoError α) : Outcome α := ⟨[], r⟩

/-- The Go idiom `v, err := f(); if err != nil { return wrap(err) }`. -/
def tryWrap {α : Type} (r : Except GoError α) (wrap : GoError → GoError) : Outcome α :=
  ⟨[], r.mapError wrap⟩

/-- A Go error value as a result: nil is success. -/
def errResult : Option GoError → Except GoError Unit
  | none => .ok ()
  | some e => .error e

/-- The Go idiom `if err := f(); err != nil { return err }`, also `return f()`. -/
def check (r : Option GoError) : Outcome Unit := ⟨[], errResult r⟩

end Outcome

open Outcome

/-! ## The commands of `tx.go` -/

/-- The body `RunE` of `CmdSendToEth`. -/
def SendToEthRunE (env : Env) (flags : FlagSet) (args : List String) : Outcome Unit :=
  match args with
  | [arg0, arg1, arg2] => do
    emit (.clientContext flags)
    let cliCtx ← try_ (env.getClientTxContext flags)
    let amount ← tryWrap (env.parseCoinNormalized arg1) (fun err => .sdkWrap err "invalid amount")
    let bridgeFee ← tryWrap (env.parseCoinNormalized arg2)
      (fun err => .sdkWrap err "invalid bridge fee")
    let msg := Msg.NewMsgSendToEth cliCtx.GetFromAddress arg0 amount bridgeFee
    emit (.built msg)
    emit (.validated msg)
    check (env.validateBasic msg)
    emit (.broadcast msg)
    check (env.generateOrBroadcastTxCLI cliCtx flags msg)
  | _ => fail (.base "index out of range")

/-- The body `RunE` of `CmdRequestBatch`. -/
def RequestBatchRunE (env : Env) (flags : FlagSet) (args : List String) : Outcome Unit :=
  match args with
  | [arg0] => do
    emit (.clientContext flags)
    let cliCtx ← try_ (env.getClientTxContext flags)
    let msg := Msg.NewMsgRequestBatch cliCtx.GetFromAddress arg0
    emit (.built msg)
    emit (.validated msg)
    check (env.validateBasic msg)
    emit (.broadcast msg)
    check (env.generateOrBroadcastTxCLI cliCtx flags msg)
  | _ => fail (.base "index out of range")

/-- The else branch of the signature choice in `CmdSetOrchestratorAddress`: the signature is
generated from the private key of `--eth-priv-key`. -/
def generateEthSig (env : Env) (flags : FlagSet) (clientCtx : ClientCtx)
    (valAccAddr : AccAddress) : Outcome Bytes := do
  emit (.flagRead FlagEthPrivKey)
  let ethPrivKeyStr ← try_ (flags.GetString FlagEthPrivKey)
  let privKeyBz ← tryWrap (hexutilDecode ethPrivKeyStr)
    (fun err => .fmtWrap "failed to parse Ethereum private key" err)
  let ethPrivKey ← tryWrap (env.toECDSA privKeyBz)
    (fun err => .fmtWrap "failed to convert private key" err)
  emit (.accountQuery (env.accAddressString valAccAddr))
  let res ← tryWrap (env.queryAccount clientCtx (env.accAddressString valAccAddr))
    (fun err => .fmtWrap "failed to query account" err)
  let acc ← tryWrap (env.unpackAny clientCtx res)
    (fun err => .fmtWrap "failed to unmarshal account" err)
  let signMsgBz := env.marshalSignMsg
    { ValidatorAddress := env.valAddressString valAccAddr, Nonce := acc.GetSequence }
  emit (.sign (env.keccak256Hash signMsgBz) ethPrivKey)
  tryWrap (env.newEthereumSignature (env.keccak256Hash signMsgBz) ethPrivKey)
    (fun err => .fmtWrap "failed to create Ethereum signature" err)

/-- The condition `len(s) > 0 && err == nil` on the result of reading `--orch-eth-sig`; a
failed read returns the empty string. -/
def orchEthSigGiven (r : Except GoError String) : Option String :=
  match r with
  | .ok s => if len s > 0 then some s else none
  | .error _ => none

/-- The body `RunE` of `CmdSetOrchestratorAddress`. -/
def SetOrchestratorAddressRunE (env : Env) (flags : FlagSet) (args : List String) :
    Outcome Unit :=
  match args with
  | [arg0, arg1, arg2] => do
    emit (.flagSet FlagFrom arg0)
    let flags ← try_ (flags.Set FlagFrom arg0)
    emit (.clientContext flags)
    let clientCtx ← try_ (env.getClientTxContext flags)
    let orcAddr ← try_ (env.accAddressFromBech32 arg1)
    let valAccAddr := clientCtx.GetFromAddress
    emit (.flagRead FlagOrchEthSig)
    let ethSig ←
      match orchEthSigGiven (flags.GetString FlagOrchEthSig) with
      | some s => try_ (hexutilDecode s)
      | none => generateEthSig env flags clientCtx valAccAddr
    let msg := Msg.NewMsgSetOrchestratorAddress valAccAddr orcAddr (HexToAddress arg2) ethSig
    emit (.built msg)
    emit (.validated msg)
    check (env.validateBasic msg)
    emit (.broadcast msg)
    check (env.generateOrBroadcastTxCLI clientCtx flags msg)
  | _ => fail (.base "index out of range")

/-- A cobra command: `Args` is the number of `cobra.ExactArgs`, `Flags` the flags defined on
the command with their default values. -/
structure Command where
  Use : String
  Short : String
  Args : Nat
  Flags : FlagSet
  RunE : Env → FlagSet → List String → Outcome Unit

/-- Of the flags `flags.AddTxFlagsToCmd` defines, the one these commands consult: `--from`. -/
def txFlags : FlagSet := [(FlagFrom, "")]

def CmdSendToEth : Command where
  Use := "send-to-eth [eth-dest-addr] [amount] [bridge-fee]"
  Short := "Create a new un-batched tx in the tx pool to withdraw funds from Cosmos to Ethereum"
  Args := 3
  Flags := txFlags
  RunE := SendToEthRunE

def CmdRequestBatch : Command where
  Use := "build-batch [denom]"
  Short := "Build a new tx batch for pooled Cosmos withdrawal transactions"
  Args := 1
  Flags := txFlags
  RunE := RequestBatchRunE

def CmdSetOrchestratorAddress : Command where
  Use := "set-orchestrator-address [validator-acc-addr] [orchestrator-addr] [ethereum-addr]"
  Short := "Allows validators to delegate their voting responsibilities to a given key."
  Args := 3
  Flags := [(FlagOrchEthSig, ""), (FlagEthPrivKey, "")] ++ txFlags
  RunE := SetOrchestratorAddressRunE

/-- The parent command with its subcommands. -/
structure RootCommand where
  Use : String
  Short : String
  commands : List Command

/-- Modelled from the spec: the constant `types.ModuleName` of `x/peggy/types`, which is not
among the sources; the bridge module is called Peggy. -/
def ModuleName : String := "peggy"

def GetTxCmd (_storeKey : String) : RootCommand where
  Use := ModuleName
  Short := "Transaction commands for the " ++ ModuleName ++ " module"
  commands := [CmdSendToEth, CmdRequestBatch, CmdSetOrchestratorAddress]

/-- Cobra flag parsing: the flags given on the command line are assigned in order. -/
def parseFlags (fs : FlagSet) : List (String × String) → Except GoError FlagSet
  | [] => .ok fs
  | (name, value) :: rest =>
    match fs.Set name value with
    | .ok fs1 => parseFlags fs1 rest
    | .error e => .error e

/-- Execution of a command by cobra: flags are parsed, the number of arguments is checked,
then the body runs. -/
def Command.execute (c : Command) (env : Env) (given : List (String × String))
    (args : List String) : Outcome Unit :=
  match parseFlags c.Flags given with
  | .error e => ⟨[], .error e⟩
  | .ok fs =>
    if args.length ≠ c.Args then
      ⟨[], .error (.base ("accepts " ++ toString c.Args ++ " arg(s), received " ++
        toString args.length))⟩
    else c.RunE env fs args

/-- The digest `set-orchestrator-address` signs for a validator account and a nonce: Keccak256
of the proto encoding of the sign message with the validator address of the account. -/
def signDigest (env : Env) (valAccAddr : AccAddress) (nonce : Nat) : Bytes :=
  env.keccak256Hash (env.marshalSignMsg
    { ValidatorAddress := env.valAddressString valAccAddr, Nonce := nonce })

/-- Modelled from the spec: the five message types section 6 of the design document lists
for the bridge; their handlers are not among the sources. -/
inductive MsgType where
  | MsgDelegateOrchestrator
  | MsgSubmitClaim
  | MsgSendToExternal
  | MsgRequestBatch
  | MsgConfirmBatch
deriving DecidableEq, Repr

/-- The message type of the design document a constructed message belongs to. -/
def Msg.msgType : Msg → MsgType
  | .NewMsgSendToEth .. => .MsgSendToExternal
  | .NewMsgRequestBatch .. => .MsgRequestBatch
  | .NewMsgSetOrchestratorAddress .. => .MsgDelegateOrchestrator

/-- A command constructs a message type when some run of its body builds a message of that
type. -/
def Command.Constructs (c : Command) (t : MsgType) : Prop :=
  ∃ (env : Env) (fs : FlagSet) (args : List String) (m : Msg),
    Event.built m ∈ (c.RunE env fs args).events ∧ m.msgType = t

/-- The shape of a finished run: either no message was built and an error is returned, or
exactly one message was built, and it was handed to the broadcaster exactly when its
`ValidateBasic` returned nil; a validation error is returned as it is. -/
def Validated (env : Env) (o : Outcome Unit) : Prop :=
  ((∀ m, Event.built m ∉ o.events) ∧ (∀ m, Event.broadcast m ∉ o.events) ∧
    ∃ e, o.result = .error e) ∨
  ∃ m, (∀ m', Event.built m' ∈ o.events ↔ m' = m) ∧
    ((env.validateBasic m = none ∧ ∀ m', Event.broadcast m' ∈ o.events ↔ m' = m) ∨
     (∃ e, env.validateBasic m = some e ∧ o.result = .error e ∧
        ∀ m', Event.broadcast m' ∉ o.events))

/-! ### An example environment

Simple stand-ins for the outside calls, on which runs of the commands can be evaluated. -/

/-- The number a list of decimal digits writes. -/
def digitsValue (ds : List Char) : Nat :=
  ds.foldl (fun n c => n * 10 + (c.toNat - 48)) 0

/-- Example coin parser: decimal digits followed by a denomination. -/
def exampleParseCoin (s : String) : Except GoError Coin :=
  let ds := s.toList.takeWhile Char.isDigit
  let rest := s.toList.dropWhile Char.isDigit
  if ds.isEmpty || rest.isEmpty then .error (.base ("invalid decimal coin expression: " ++ s))
  else .ok ⟨String.mk rest, digitsValue ds⟩

/-- Example environment: the sender is the account named by `--from`, addresses are the bytes
of their text, every account has sequence 7, a private key is 32 bytes, and validation
asks for a non-empty signature, destination and denomination. -/
def exampleEnv : Env where
  getClientTxContext := fun fs =>
    match fs.lookup FlagFrom with
    | some name =>
      if name = "" then .error (.base "no from address") else .ok ⟨goBytes name, "peggy-1"⟩
    | none => .error (.base "flag accessed but not defined: from")
  accAddressFromBech32 := fun s =>
    if s = "" then .error (.base "empty address string is not allowed") else .ok (goBytes s)
  parseCoinNormalized := exampleParseCoin
  accAddressString := fun a => String.mk (a.map Char.ofNat)
  valAddressString := fun a => "valoper:" ++ String.mk (a.map Char.ofNat)
  toECDSA := fun bz =>
    if bz.length = 32 then .ok (bz.foldl (fun n b => n * 256 + b) 0)
    else .error (.base "invalid length, need 256 bits")
  queryAccount := fun _ addr => .ok (goBytes addr)
  unpackAny := fun _ bz => .ok ⟨bz, 1, 7⟩
  marshalSignMsg := fun m => goBytes m.ValidatorAddress ++ [m.Nonce]
  keccak256Hash := fun bz => [bz.length, bz.sum % 256]
  newEthereumSignature := fun digest key => .ok (digest ++ [key % 256])
  validateBasic := fun m =>
    match m with
    | .NewMsgSendToEth _ dest _ _ => if dest = "" then some (.base "empty destination") else none
    | .NewMsgRequestBatch _ denom => if denom = "" then some (.base "empty denom") else none
    | .NewMsgSetOrchestratorAddress _ _ _ sig =>
      if sig = [] then some (.base "empty signature") else none
  generateOrBroadcastTxCLI := fun _ _ _ => none

end Peggy

/-! ## The simulation tests of `sim_test.go` -/

namespace Simulation

open Peggy (Bytes GoError)

/-- How a test ends. -/
inductive Verdict where
  | skipped
  | passed
  | failed
  | panicked
deriving DecidableEq, Repr

def numSeeds : Nat := 3
def numTimesToRunPerSeed : Nat := 5

/-- One executed `assert.Equal` of `TestAppStateDeterminism`: the loop indices `i` and `j` at
the call and the two compared values, `appHashList[0]` and `appHashList[j]`. -/
structure HashAssertion where
  seedIndex : Nat
  attempt : Nat
  expected : Bytes
  actual : Bytes
deriving DecidableEq, Repr

/-- The state of `TestAppStateDeterminism`: the slice `appHashList`, the equality assertions
executed so far, and whether an assertion has failed (`assert.NilError` and `assert.Equal`
stop the test at their first failure). -/
structure DeterminismState where
  appHashList : List Bytes
  assertions : List HashAssertion
  failed : Bool
deriving DecidableEq, Repr

/-- The body of the inner loop for seed index `i` and run `j`. `sim seed i j` is what run `j`
with the `i`-th seed produces: the error of `simulation.SimulateFromSeed`, or the hash
`app.LastCommitID().Hash` after it. -/
def attempt (sim : Nat → Nat → Nat → Except GoError Bytes) (seed i j : Nat)
    (st : DeterminismState) : DeterminismState :=
  match sim seed i j with
  | .error _ => { st with failed := true }
  | .ok appHash =>
    let appHashList := st.appHashList.set j appHash
    if j ≠ 0 then
      let a : HashAssertion := ⟨i, j, appHashList.getD 0 [], appHashList.getD j []⟩
      { appHashList := appHashList
        assertions := st.assertions ++ [a]
        failed := decide (a.expected ≠ a.actual) }
    else { st with appHashList := appHashList }

/-- The inner loop `for j := ...; j < numTimesToRunPerSeed; j++` with `n` iterations left. -/
def attemptsLoop (sim : Nat → Nat → Nat → Except GoError Bytes) (seed i : Nat) :
    Nat → Nat → DeterminismState → DeterminismState
  | 0, _, st => st
  | n + 1, j, st =>
    if st.failed then st else attemptsLoop sim seed i n (j + 1) (attempt sim seed i j st)

/-- The outer loop `for i := ...; i < numSeeds; i++` with `n` iterations left; `rand i` is the
value `rand.Int63()` returns in iteration `i`. -/
def seedsLoop (rand : Nat → Nat) (sim : Nat → Nat → Nat → Except GoError Bytes) :
    Nat → Nat → DeterminismState → DeterminismState
  | 0, _, st => st
  | n + 1, i, st =>
    if st.failed then st
    else seedsLoop rand sim n (i + 1) (attemptsLoop sim (rand i) i numTimesToRunPerSeed 0 st)

/-- The test `TestAppStateDeterminism`: its verdict and the equality assertions it executed. -/
def TestAppStateDeterminism (FlagEnabledValue : Bool) (rand : Nat → Nat)
    (sim : Nat → Nat → Nat → Except GoError Bytes) : Verdict × List HashAssertion :=
  if !FlagEnabledValue then (.skipped, [])
  else
    let st := seedsLoop rand sim numSeeds 0 ⟨List.replicate numTimesToRunPerSeed [], [], false⟩
    (if st.failed then .failed else .passed, st.assertions)

/-- Run `k` with the seed of index `i` ended without error on the hash of run 0 with that
seed. -/
def AgreesWithFirst (rand : Nat → Nat) (sim : Nat → Nat → Nat → Except GoError Bytes)
    (i k : Nat) : Prop :=
  ∃ h, sim (rand i) i 0 = .ok h ∧ sim (rand i) i k = .ok h

/-- An equality assertion that compares the hash of a run `j > 0` with the hash of run 0 of
the same seed. -/
def GoodAssertion (rand : Nat → Nat) (sim : Nat → Nat → Nat → Except GoError Bytes)
    (a : HashAssertion) : Prop :=
  a.seedIndex < numSeeds ∧ 0 < a.attempt ∧ a.attempt < numTimesToRunPerSeed ∧
  sim (rand a.seedIndex) a.seedIndex 0 = .ok a.expected ∧
  sim (rand a.seedIndex) a.seedIndex a.attempt = .ok a.actual

/-- The stores `TestAppImportExport` names, and any other store of the application. -/
inductive StoreKey where
  | auth
  | staking
  | slashing
  | mint
  | distr
  | bank
  | params
  | gov
  | evidence
  | capability
  | authz
  | ibc
  | ibctransfer
  | leverage
  | oracle
  | other (name : String)
deriving DecidableEq, Repr

/-- The store of the bridge module, under the module name of the command tree. -/
def bridgeStore : StoreKey := .other Peggy.ModuleName

/-- A key/value pair of a store. -/
abbrev KVPair := Bytes × Bytes

/-- The contents of a store in iteration order, which is the order of the keys. -/
abbrev KVStore := List KVPair

/-- The stores of an application instance. -/
abbrev Stores := StoreKey → KVStore

/-- The key constants `TestAppImportExport` takes from the SDK modules. -/
structure SDK where
  UnbondingQueueKey : Bytes
  RedelegationQueueKey : Bytes
  ValidatorQueueKey : Bytes
  HistoricalInfoKey : Bytes
  UnbondingIDKey : Bytes
  UnbondingIndexKey : Bytes
  UnbondingTypeKey : Bytes
  ValidatorUpdatesKey : Bytes
  BalancesPrefix : Bytes
  GrantKey : Bytes
  GrantQueuePrefix : Bytes

/-- A pair of stores to compare and the key prefixes left out. -/
structure StoreKeysPrefixes where
  A : StoreKey
  B : StoreKey
  Prefixes : List Bytes
deriving DecidableEq, Repr

/-- The slice `storeKeysPrefixes` of `TestAppImportExport`. -/
def storeKeysPrefixes (sdk : SDK) : List StoreKeysPrefixes :=
  [ ⟨.auth, .auth, []⟩,
    ⟨.staking, .staking,
      [sdk.UnbondingQueueKey, sdk.RedelegationQueueKey, sdk.ValidatorQueueKey,
       sdk.HistoricalInfoKey, sdk.UnbondingIDKey, sdk.UnbondingIndexKey, sdk.UnbondingTypeKey,
       sdk.ValidatorUpdatesKey]⟩,
    ⟨.slashing, .slashing, []⟩,
    ⟨.mint, .mint, []⟩,
    ⟨.distr, .distr, []⟩,
    ⟨.bank, .bank, [sdk.BalancesPrefix]⟩,
    ⟨.params, .params, []⟩,
    ⟨.gov, .gov, []⟩,
    ⟨.evidence, .evidence, []⟩,
    ⟨.capability, .capability, []⟩,
    ⟨.authz, .authz, [sdk.GrantKey, sdk.GrantQueuePrefix]⟩,
    ⟨.ibc, .ibc, []⟩,
    ⟨.ibctransfer, .ibctransfer, []⟩,
    ⟨.leverage, .leverage, []⟩,
    ⟨.oracle, .oracle, []⟩ ]

/-- The loop of `sdk.DiffKVStores` over the two iterators, `a` and `b` being what is left of
them and `kvAs`, `kvBs` the differing pairs found so far. An exhausted iterator yields the
zero pair; `iterA.Next()` is guarded by `iterA.Valid()`, `iterB.Next()` is not, and `Next`
on an iterator that is not valid panics. Every turn consumes a pair of `a` or of `b`, except
when `a` is exhausted and an empty prefix makes the turn skip without moving `b`: the Go
loop then never returns, which is the error of the last line here. -/
def diffLoop (prefixesToSkip : List Bytes) :
    Nat → KVStore → KVStore → List KVPair → List KVPair →
      Except String (List KVPair × List KVPair)
  | 0, _, _, _, _ => .error "DiffKVStores does not return"
  | fuel + 1, a, b, kvAs, kvBs =>
    if a.isEmpty && b.isEmpty then .ok (kvAs, kvBs)
    else
      let kvA : KVPair := a.headD ([], [])
      let kvB : KVPair := b.headD ([], [])
      let compareValue := !prefixesToSkip.any (fun p => p.isPrefixOf kvA.1)
      if !compareValue then
        if kvA.1 = kvB.1 then
          match b with
          | [] => .error "iterator is invalid"
          | _ :: b1 => diffLoop prefixesToSkip fuel a.tail b1 kvAs kvBs
        else diffLoop prefixesToSkip fuel a.tail b kvAs kvBs
      else
        match b with
        | [] => .error "iterator is invalid"
        | _ :: b1 =>
          if kvA.1 ≠ kvB.1 ∨ kvA.2 ≠ kvB.2 then
            diffLoop prefixesToSkip fuel a.tail b1 (kvAs ++ [kvA]) (kvBs ++ [kvB])
          else diffLoop prefixesToSkip fuel a.tail b1 kvAs kvBs

/-- The function `sdk.DiffKVStores` of the SDK on two stores: the pairs of the first and of
the second store that differ, position by position, the comparison being skipped where the
key of the first store has one of the given prefixes; an error is a panic (or a loop that
does not return). -/
def DiffKVStores (a b : KVStore) (prefixesToSkip : List Bytes) :
    Except String (List KVPair × List KVPair) :=
  diffLoop prefixesToSkip (a.length + b.length + 1) a b [] []

/-- How the body of a test function ends: it returns, an assertion stops it (`FailNow`), or
it panics with a value. -/
inductive BodyOutcome where
  | returned
  | failNow
  | panic (r : String)
deriving DecidableEq, Repr

/-- The comparison loop of `TestAppImportExport`: both assertions of an iteration stop the
test when they fail. -/
def compareStores (sdk : SDK) (storesA storesB : Stores) :
    List StoreKeysPrefixes → BodyOutcome
  | [] => .returned
  | skp :: rest =>
    match DiffKVStores (storesA skp.A) (storesB skp.B) skp.Prefixes with
    | .error r => .panic r
    | .ok failed =>
      if failed.1.length ≠ failed.2.length then .failNow
      else if 0 ≠ failed.1.length then .failNow
      else compareStores sdk storesA storesB rest

/-- Go `strings.Contains`. -/
def stringsContains (s substr : String) : Bool :=
  s.toList.tails.any (fun t => substr.toList.isPrefixOf t)

/-- What `TestAppImportExport` starts from and meets on its way: the flag `stopEarly` of
`appExportAndImport`, the panic value of `InitChainer` on the new application if it panics,
the stores of the simulated application and those of the new application after the import,
and the errors of the deferred `newDB.Close()`, `os.RemoveAll(newDir)` and
`os.RemoveAll(dir)`. -/
structure ImportExport where
  stopEarly : Bool
  initChainerPanic : Option String
  storesA : Stores
  storesB : Stores
  newDBClose : Option GoError
  removeNewDir : Option GoError
  removeDir : Option GoError

/-- The body of `TestAppImportExport` after the deferred functions are registered. -/
def importExportBody (sdk : SDK) (run : ImportExport) : BodyOutcome :=
  if run.stopEarly then .returned
  else
    match run.initChainerPanic with
    | some r => .panic r
    | none => compareStores sdk run.storesA run.storesB (storeKeysPrefixes sdk)

/-- Whether one of the deferred `assert.NilError` checks fails. They run however the body
ended, before the deferred `recover`. -/
def cleanupFails (run : ImportExport) : Bool :=
  run.newDBClose.isSome || run.removeNewDir.isSome || run.removeDir.isSome

/-- The test `TestAppImportExport`. A failing deferred check stops the test as failed; else
a body that returned passes, a stopped one fails, and a panic is recovered when its text
contains "validator set is empty after InitGenesis" and raised again otherwise. -/
def TestAppImportExport (sdk : SDK) (run : ImportExport) : Verdict :=
  if cleanupFails run then .failed
  else
    match importExportBody sdk run with
    | .returned => .passed
    | .failNow => .failed
    | .panic r =>
      if stringsContains r "validator set is empty after InitGenesis" then .passed
      else .panicked

/-! ### The application, modelled from the design document

The application under test is not among the sources. The design document describes it as a
deterministic state machine over committed key/value storage, scoped by module, whose
modules lay their entities out in keyed collections that export and import read and write
as prefix ranges. -/

/-- Go `bytes.Compare(a, b) < 0`: the order of the keys of a store. -/
def bytesLt : Bytes → Bytes → Bool
  | [], [] => false
  | [], _ :: _ => true
  | _ :: _, [] => false
  | a :: as, b :: bs => decide (a < b) || (decide (a = b) && bytesLt as bs)

/-- Modelled from the spec: a write to committed storage (`Set`), the application's store
code not being among the sources: the value of an existing key is replaced, a new key
takes its place in key order. -/
def storeSet : KVStore → Bytes → Bytes → KVStore
  | [], key, value => [(key, value)]
  | (k0, v0) :: rest, key, value =>
    if bytesLt key k0 then (key, value) :: (k0, v0) :: rest
    else if key = k0 then (key, value) :: rest
    else (k0, v0) :: storeSet rest key value

/-- Modelled from the spec: removal of a key from committed storage (`Delete`), the
application's store code not being among the sources. -/
def storeDelete (s : KVStore) (key : Bytes) : KVStore :=
  s.filter (fun kv => kv.1 ≠ key)

/-- Modelled from the spec: iteration over the range of a key prefix (section 6, "iterable
prefix ranges"), the application's store code not being among the sources. -/
def rangeOf (s : KVStore) (p : Bytes) : List KVPair :=
  s.filter (fun kv => p.isPrefixOf kv.1)

/-- Modelled from the spec: a state mutation of a handler, the handlers not being among the
sources: a key of a module's store is written or removed. -/
inductive Write where
  | set (store : StoreKey) (key value : Bytes)
  | delete (store : StoreKey) (key : Bytes)
deriving DecidableEq, Repr

/-- The store a write goes to. -/
def Write.store : Write → StoreKey
  | .set store _ _ => store
  | .delete store _ => store

/-- The key a write concerns. -/
def Write.key : Write → Bytes
  | .set _ key _ => key
  | .delete _ key => key

/-- Modelled from the spec: the application, which is not among the sources. Each module has
its keyed collections, given by their key prefixes (section 6); a handler is a deterministic
state transition against committed storage (section 2) and mutates keys of its module's
collections only (section 3, ownership); the simulation derives its transactions from the
seed; the application hash is a function of the committed storage. -/
structure Application where
  collections : StoreKey → List Bytes
  handler : Stores → Bytes → List Write
  operations : Nat → List Bytes
  appHash : Stores → Bytes
  layout : ∀ (st : Stores) (tx : Bytes) (w : Write), w ∈ handler st tx →
    ∃ p ∈ collections w.store, p.isPrefixOf w.key = true

/-- Modelled from the spec: the effect of one write on the stores, the application's store
code not being among the sources. -/
def applyWrite (st : Stores) (w : Write) : Stores :=
  match w with
  | .set store key value => fun k => if k = store then storeSet (st k) key value else st k
  | .delete store key => fun k => if k = store then storeDelete (st k) key else st k

/-- Modelled from the spec: the execution of one transaction, run to completion before the
next (section 5), the application's code not being among the sources. -/
def deliverTx (app : Application) (st : Stores) (tx : Bytes) : Stores :=
  (app.handler st tx).foldl applyWrite st

/-- The fresh in-memory database `dbm.NewMemDB()` every run starts from. -/
def NewMemDB : Stores := fun _ => []

/-- Modelled from the spec: the state a simulation run of the application reaches from a
database and a seed, the application's code not being among the sources: the transactions
the seed determines are executed in order. -/
def simulate (app : Application) (db : Stores) (seed : Nat) : Stores :=
  (app.operations seed).foldl (deliverTx app) db

/-- Modelled from the spec: run `j` with the seed of index `i` in `TestAppStateDeterminism`
on the modelled application, which is not among the sources: a fresh database, the
simulation from the seed, and the hash of the committed state; no handler error ends the
simulation (section 7). -/
def SimulateFromSeed (app : Application) (seed _i _j : Nat) : Except GoError Bytes :=
  .ok (app.appHash (simulate app NewMemDB seed))

/-- Modelled from the spec: the genesis export of a module, which is not among the sources:
the entries of each of its keyed collections, read as prefix ranges (section 6). -/
def ExportGenesis (collections : List Bytes) (s : KVStore) : List (List KVPair) :=
  collections.map (rangeOf s)

/-- Modelled from the spec: the genesis import of a module into a fresh instance, which is
not among the sources: every exported entry is written to an empty store (section 6). -/
def InitGenesis (genesis : List (List KVPair)) : KVStore :=
  genesis.flatten.foldl (fun s kv => storeSet s kv.1 kv.2) []

/-- Modelled from the spec: the export of the full application state, module by module, the
application's code not being among the sources. -/
def ExportAppState (app : Application) (st : Stores) : StoreKey → List (List KVPair) :=
  fun k => ExportGenesis (app.collections k) (st k)

/-- Modelled from the spec: `InitChainer` of a fresh application instance on an exported
state, the application's code not being among the sources: every module imports its
genesis. -/
def InitChainer (appState : StoreKey → List (List KVPair)) : Stores :=
  fun k => InitGenesis (appState k)

/-- The keys of a store are in strictly increasing order. -/
def KeySorted (s : KVStore) : Prop :=
  s.Pairwise (fun a b => bytesLt a.1 b.1 = true)

/-- Every key of a store lies in one of the given collections. -/
def Covered (collections : List Bytes) (s : KVStore) : Prop :=
  ∀ kv ∈ s, ∃ p ∈ collections, p.isPrefixOf kv.1 = true

/-- Modelled from the spec: an example application, the application's code not being among
the sources. The bridge module keeps two collections, under the prefixes 1 and 2, and the
bank module one, under 3; a transaction `[c, k, v]` with `c` even writes `v` under key `k`
of the first bridge collection and under the bank collection, one with `c` odd removes key
`k` of the first bridge collection and writes the second; the seed determines four
transactions. -/
def exampleApplication : Application where
  collections := fun k =>
    if k = bridgeStore then [[1], [2]] else if k = .bank then [[3]] else []
  handler := fun _ tx =>
    match tx with
    | [c, k, v] =>
      if c % 2 = 0 then [.set bridgeStore [1, k] [v], .set .bank [3, k] [v]]
      else [.delete bridgeStore [1, k], .set bridgeStore [2, k] [v]]
    | _ => []
  operations := fun seed =>
    [[0, seed % 3, seed], [0, seed % 5, 1], [1, seed % 3, 2], [0, 9, seed % 7]]
  appHash := fun st => (st bridgeStore ++ st .bank).map (fun kv => kv.1.sum + kv.2.sum)
  layout := by
    intro st tx w hw
    dsimp only at hw ⊢
    split at hw
    · split at hw
      · simp only [List.mem_cons, List.mem_singleton, List.not_mem_nil, or_false] at hw
        rcases hw with rfl | rfl
        · exact ⟨[1], by simp [Write.store], by simp [Write.key]⟩
        · exact ⟨[3], by simp [Write.store, bridgeStore], by simp [Write.key]⟩
      · simp only [List.mem_cons, List.mem_singleton, List.not_mem_nil, or_false] at hw
        rcases hw with rfl | rfl
        · exact ⟨[1], by simp [Write.store], by simp [Write.key]⟩
        · exact ⟨[2], by simp [Write.store], by simp [Write.key]⟩
    · cases hw

/-- Example values of the key constants of the SDK. -/
def exampleSDK : SDK where
  UnbondingQueueKey := [0x41]
  RedelegationQueueKey := [0x42]
  ValidatorQueueKey := [0x43]
  HistoricalInfoKey := [0x50]
  UnbondingIDKey := [0x37]
  UnbondingIndexKey := [0x38]
  UnbondingTypeKey := [0x39]
  ValidatorUpdatesKey := [0x61]
  BalancesPrefix := [0x02]
  GrantKey := [0x01]
  GrantQueuePrefix := [0x02]

end Simulation

/-! ## The attestation ledger of the design document (section 4.2)

The ledger is not among the sources; it is modelled from the design document. -/

namespace Ledger

open Peggy (Bytes)

/-- A validator, by its address. -/
abbrev Validator := Nat

/-- An orchestrator, by its address. -/
abbrev Orchestrator := Nat

/-- Modelled from the spec: a claim `{eventNonce, eventType, attester, payload-hash}` of the
data model, the ledger's code not being among the sources. -/
structure Claim where
  eventNonce : Nat
  eventType : Nat
  attester : Orchestrator
  payloadHash : Bytes
deriving DecidableEq, Repr

/-- Modelled from the spec: an attestation `{eventNonce, payload-hash, set of attesters,
accumulatedPower, finalized}` of the data model, the ledger's code not being among the
sources. -/
structure Attestation where
  eventNonce : Nat
  payloadHash : Bytes
  attesters : List Validator
  accumulatedPower : Nat
  finalized : Bool
deriving DecidableEq, Repr

/-- Modelled from the spec: the services the ledger reads, which the sources do not contain:
the registry (`ResolveValidator`), the voting power lookup, and the quorum threshold. -/
structure Services where
  resolveValidator : Orchestrator → Option Validator
  votingPower : Validator → Nat
  quorum : Nat

/-- Modelled from the spec: the failures of `SubmitClaim` named in sections 4.2 and 7, the
ledger's code not being among the sources. -/
inductive ClaimError where
  | NotDelegated
  | NonceOutOfOrder
  | NonceTooHigh
  | ConflictingEvidence
deriving DecidableEq, Repr

/-- Modelled from the spec: the durable state of the ledger for one event stream, which the
sources do not contain: the highest fully processed nonce (the next expected nonce is one
more), the attestations tracked for the next expected nonce, one per distinct payload hash
in arrival order, the finalized attestations, and the state effects applied. -/
structure State where
  lastProcessed : Nat
  tracked : List Attestation
  finalized : List Attestation
  applied : List (Nat × Bytes)
deriving DecidableEq, Repr

/-- Modelled from the spec: the count of a new distinct vote (section 4.2, "on each new
distinct vote, accumulates power", tracking "per distinct hash"), the ledger's code not
being among the sources. The vote joins the attestation of its payload hash, or starts one. -/
def addVote (c : Claim) (v : Validator) (power : Nat) : List Attestation → List Attestation
  | [] => [⟨c.eventNonce, c.payloadHash, [v], power, false⟩]
  | a :: rest =>
    if a.payloadHash = c.payloadHash then
      { a with attesters := a.attesters ++ [v], accumulatedPower := a.accumulatedPower + power }
        :: rest
    else a :: addVote c v power rest

/-- Modelled from the spec: `SubmitClaim` of section 4.2, the ledger's code not being among
the sources. The orchestrator is resolved to its validator (`NotDelegated`); a claim for a
nonce already processed is rejected (`NonceOutOfOrder`, or conflicting evidence against a
finalized attestation with another payload hash); a claim beyond the next expected nonce is
rejected (`NonceTooHigh`); a second vote of a validator on the nonce is an idempotent no-op;
a new distinct vote accumulates power. -/
def SubmitClaim (s : Services) (st : State) (c : Claim) : Except ClaimError State :=
  match s.resolveValidator c.attester with
  | none => .error .NotDelegated
  | some v =>
    if c.eventNonce ≤ st.lastProcessed then
      if st.finalized.any (fun a => a.eventNonce = c.eventNonce ∧ a.payloadHash ≠ c.payloadHash)
      then .error .ConflictingEvidence
      else .error .NonceOutOfOrder
    else if st.lastProcessed + 1 < c.eventNonce then .error .NonceTooHigh
    else if st.tracked.any (fun a => v ∈ a.attesters) then .ok st
    else .ok { st with tracked := addVote c v (s.votingPower v) st.tracked }

/-- Modelled from the spec: `TryFinalize` of section 4.2, the ledger's code not being among
the sources. If a tracked payload hash of the nonce has accumulated the quorum, the first
such attestation in arrival order is marked finalized, its effect is applied once, the next
expected nonce advances and the competing claims are discarded. -/
def TryFinalize (s : Services) (st : State) (eventNonce : Nat) : State :=
  if eventNonce ≠ st.lastProcessed + 1 then st
  else
    match st.tracked.find? (fun a => s.quorum ≤ a.accumulatedPower) with
    | none => st
    | some a =>
      { lastProcessed := eventNonce
        tracked := []
        finalized := st.finalized ++ [{ a with finalized := true }]
        applied := st.applied ++ [(eventNonce, a.payloadHash)] }

/-- Modelled from the spec: the handler of a `MsgSubmitClaim` transaction, the ledger's code
not being among the sources: the claim is submitted and finalization is tried; a rejected
transaction leaves the state unchanged (section 7). -/
def handleSubmitClaim (s : Services) (st : State) (c : Claim) : State :=
  match SubmitClaim s st c with
  | .error _ => st
  | .ok st1 => TryFinalize s st1 c.eventNonce

/-- Modelled from the spec: the state after a sequence of claim transactions, each run to
completion before the next (section 5), the ledger's code not being among the sources. -/
def submitAll (s : Services) (st : State) (cs : List Claim) : State :=
  cs.foldl (handleSubmitClaim s) st

/-- Modelled from the spec: the ledger of a stream on which `lastProcessed` nonces have been
processed and nothing is tracked, the ledger's code not being among the sources. -/
def initial (lastProcessed : Nat) : State := ⟨lastProcessed, [], [], []⟩

/-- The distinct validators behind a sequence of claims, in order of first appearance. -/
def voters (s : Services) (cs : List Claim) : List Validator :=
  (cs.filterMap (fun c => s.resolveValidator c.attester)).dedup

/-- The summed voting power of a list of validators. -/
def totalPower (s : Services) (vs : List Validator) : Nat :=
  (vs.map s.votingPower).sum

/-- What a tracked attestation satisfies before finalization is tried: it is for the next
expected nonce, not finalized, and its power is the summed power of its attesters, who are
distinct. -/
def Counted (s : Services) (st : State) (a : Attestation) : Prop :=
  a.eventNonce = st.lastProcessed + 1 ∧ a.finalized = false ∧
  a.accumulatedPower = totalPower s a.attesters ∧ a.attesters.Nodup

/-- The invariant of the ledger: tracked attestations are counted and below the quorum,
finalized ones are for processed nonces and reached the quorum with the summed power of
their distinct attesters. -/
def Inv (s : Services) (st : State) : Prop :=
  (∀ a ∈ st.tracked, Counted s st a ∧ a.accumulatedPower < s.quorum) ∧
  (∀ a ∈ st.finalized, a.eventNonce ≤ st.lastProcessed ∧ a.finalized = true ∧
    s.quorum ≤ a.accumulatedPower ∧ a.accumulatedPower = totalPower s a.attesters ∧
    a.attesters.Nodup)

/-- The state of the ledger after claims that are all for the next nonce `n0 + 1` and the
payload hash `h`, `seen` being the validators behind the claims: either nothing is
finalized and the one attestation holds exactly the validators seen, below the quorum, or
the attestation is finalized with validators among those seen, at or above the quorum. -/
def SingleInv (s : Services) (n0 : Nat) (h : Bytes) (seen : List Validator) (st : State) :
    Prop :=
  (st.lastProcessed = n0 ∧ st.finalized = [] ∧
    ((seen = [] ∧ st.tracked = []) ∨
     ∃ vs, st.tracked = [⟨n0 + 1, h, vs, totalPower s vs, false⟩] ∧ vs.Nodup ∧
       (∀ v, v ∈ vs ↔ v ∈ seen) ∧ vs ≠ [] ∧ totalPower s vs < s.quorum)) ∨
  (st.lastProcessed = n0 + 1 ∧ st.tracked = [] ∧
    ∃ vs, st.finalized = [⟨n0 + 1, h, vs, totalPower s vs, true⟩] ∧ vs.Nodup ∧
      (∀ v ∈ vs, v ∈ seen) ∧ vs ≠ [] ∧ s.quorum ≤ totalPower s vs)

/-- Whether the attestation of a nonce and payload hash is finalized. -/
def isFinalized (st : State) (eventNonce : Nat) (payloadHash : Bytes) : Bool :=
  st.finalized.any (fun a => a.eventNonce = eventNonce ∧ a.payloadHash = payloadHash ∧
    a.finalized = true)

/-- Modelled from the spec: the scenario of section 8, on the modelled ledger: three validators of power 40, 30 and 30, each with its own
orchestrator, and quorum 67. -/
def scenario : Services where
  resolveValidator := fun o => if o = 11 then some 1 else if o = 12 then some 2
    else if o = 13 then some 3 else none
  votingPower := fun v => if v = 1 then 40 else if v = 2 then 30 else if v = 3 then 30 else 0
  quorum := 67

/-- Modelled from the spec: the claim of an orchestrator for event nonce 1 in the scenario of
section 8. -/
def scenarioClaim (o : Orchestrator) : Claim := ⟨1, 0, o, [0xab]⟩

end Ledger

/-! # Theorems -/

namespace Peggy
open Outcome

/-! ## Outcomes -/

@[simp] theorem Outcome.events_bind {α β : Type} (x : Outcome α) (f : α → Outcome β) :
    (x >>= f).events = x.events ++ (match x.result with
      | .ok a => (f a).events
      | .error _ => []) := by
  show (Outcome.andThen x f).events = _
  unfold Outcome.andThen
  cases x.result <;> simp

@[simp] theorem Outcome.result_bind {α β : Type} (x : Outcome α) (f : α → Outcome β) :
    (x >>= f).result = (match x.result with
      | .ok a => (f a).result
      | .error e => .error e) := by
  show (Outcome.andThen x f).result = _
  unfold Outcome.andThen
  cases x.result <;> simp

theorem Outcome.ext_fields {α : Type} {o : Outcome α} {es : List Event}
    {r : Except GoError α} (h1 : o.events = es) (h2 : o.result = r) : o = ⟨es, r⟩ := by
  cases o
  simp_all

@[simp] theorem Outcome.events_emit (e : Event) : (emit e).events = [e] := rfl
@[simp] theorem Outcome.result_emit (e : Event) : (emit e).result = .ok () := rfl
@[simp] theorem Outcome.events_try {α : Type} (r : Except GoError α) :
    (try_ r).events = [] := rfl
@[simp] theorem Outcome.result_try {α : Type} (r : Except GoError α) :
    (try_ r).result = r := rfl
@[simp] theorem Outcome.events_tryWrap {α : Type} (r : Except GoError α)
    (w : GoError → GoError) : (tryWrap r w).events = [] := rfl
@[simp] theorem Outcome.result_tryWrap {α : Type} (r : Except GoError α)
    (w : GoError → GoError) : (tryWrap r w).result = r.mapError w := rfl
@[simp] theorem Outcome.events_check (r : Option GoError) : (check r).events = [] := rfl
@[simp] theorem Outcome.result_check (r : Option GoError) :
    (check r).result = errResult r := rfl
@[simp] theorem Outcome.events_fail {α : Type} (e : GoError) :
    (fail e : Outcome α).events = [] := rfl
@[simp] theorem Outcome.result_fail {α : Type} (e : GoError) :
    (fail e : Outcome α).result = .error e := rfl

@[simp] theorem mapError_eq_ok {α : Type} (w : GoError → GoError) (r : Except GoError α)
    (a : α) : r.mapError w = .ok a ↔ r = .ok a := by
  cases r <;> simp [Except.mapError]

@[simp] theorem mapError_eq_error {α : Type} (w : GoError → GoError) (r : Except GoError α)
    (e : GoError) : r.mapError w = .error e ↔ ∃ e0, r = .error e0 ∧ w e0 = e := by
  cases r <;> simp [Except.mapError]

theorem mapError_error {α : Type} (w : GoError → GoError) (e : GoError) :
    (Except.error e : Except GoError α).mapError w = .error (w e) := rfl

@[simp] theorem errResult_eq_ok (r : Option GoError) (u : Unit) :
    errResult r = .ok u ↔ r = none := by
  cases r <;> simp [errResult]

@[simp] theorem errResult_eq_error (r : Option GoError) (e : GoError) :
    errResult r = .error e ↔ r = some e := by
  cases r <;> simp [errResult]

/-! ## Flags and strings -/

theorem utf8EncodeNat_ne_nil (c : Nat) : utf8EncodeNat c ≠ [] := by
  unfold utf8EncodeNat
  split_ifs <;> simp

theorem len_eq_zero_iff (s : String) : len s = 0 ↔ s = "" := by
  unfold len goBytes
  constructor
  · intro h
    have h1 : s.toList = [] := by
      cases hs : s.toList with
      | nil => rfl
      | cons c cs =>
        rw [hs] at h
        simp [List.flatMap_cons] at h
        exact absurd h.1 (utf8EncodeNat_ne_nil _)
    cases s
    simp_all [String.toList]
  · rintro rfl
    rfl

theorem orchEthSigGiven_ok (s : String) :
    orchEthSigGiven (.ok s) = if s = "" then none else some s := by
  unfold orchEthSigGiven
  by_cases h : s = ""
  · subst h
    simp [len, goBytes]
  · have : len s ≠ 0 := fun h0 => h ((len_eq_zero_iff s).1 h0)
    simp [h, Nat.pos_of_ne_zero this]

theorem lookup_map_set (fs : FlagSet) (name value other : String) (h : other ≠ name) :
    List.lookup other (fs.map (fun kv => if kv.1 = name then (kv.1, value) else kv)) =
      List.lookup other fs := by
  induction fs with
  | nil => rfl
  | cons kv rest ih =>
    obtain ⟨k, v⟩ := kv
    rw [List.map_cons]
    by_cases hk : k = name
    · have hb : (other == k) = false := by
        rw [hk]
        simpa using h
      rw [if_pos hk, List.lookup_cons, List.lookup_cons, hb]
      exact ih
    · rw [if_neg hk, List.lookup_cons, List.lookup_cons, ih]

theorem GetString_Set {fs fs1 : FlagSet} {name value : String}
    (h : fs.Set name value = .ok fs1) (other : String) (hne : other ≠ name) :
    fs1.GetString other = fs.GetString other := by
  unfold FlagSet.Set at h
  split at h
  · injection h with h
    subst h
    unfold FlagSet.GetString
    rw [lookup_map_set fs name value other hne]
  · cases h


theorem mapError_ok {α : Type} (w : GoError → GoError) (a : α) :
    (Except.ok a : Except GoError α).mapError w = .ok a := rfl

/-- Every signing step of `set-orchestrator-address` follows a successful account query and
signs the digest of the sender and the queried sequence. -/
theorem sign_event_digest (env : Env) (flags : FlagSet)
    (args : List String) (digest : Bytes) (key : Nat)
    (h : Event.sign digest key ∈ (SetOrchestratorAddressRunE env flags args).events) :
    ∃ arg0 arg1 arg2 fs clientCtx res acc,
      args = [arg0, arg1, arg2] ∧ flags.Set FlagFrom arg0 = .ok fs ∧
      env.getClientTxContext fs = .ok clientCtx ∧
      env.queryAccount clientCtx (env.accAddressString clientCtx.GetFromAddress) = .ok res ∧
      env.unpackAny clientCtx res = .ok acc ∧
      digest = signDigest env clientCtx.GetFromAddress acc.GetSequence := by
  revert h
  unfold SetOrchestratorAddressRunE generateEthSig
  split
  · rename_i arg0 arg1 arg2
    simp only [Outcome.events_bind, Outcome.result_bind, Outcome.events_emit,
      Outcome.result_emit, Outcome.events_try, Outcome.result_try, Outcome.events_tryWrap,
      Outcome.result_tryWrap, Outcome.events_check, Outcome.result_check, List.append_nil,
      List.nil_append]
    repeat (any_goals split) <;> (try simp_all [signDigest])
  · simp

/-- The generating branch of `set-orchestrator-address` when the key decodes and converts
and the account is found: it reads the key flag, queries the account, signs the digest of
the account's validator address and sequence, and returns what the signer returns. -/
theorem generateEthSig_signs (env : Env) (fs : FlagSet) (ctx : ClientCtx)
    (addr : AccAddress) (pk : String) (bz : Bytes) (key : Nat) (res : Bytes) (acc : Account)
    (hpk : fs.GetString FlagEthPrivKey = .ok pk) (hdec : hexutilDecode pk = .ok bz)
    (hkey : env.toECDSA bz = .ok key)
    (hq : env.queryAccount ctx (env.accAddressString addr) = .ok res)
    (hu : env.unpackAny ctx res = .ok acc) :
    generateEthSig env fs ctx addr =
      ⟨[Event.flagRead FlagEthPrivKey, Event.accountQuery (env.accAddressString addr),
        Event.sign (signDigest env addr acc.GetSequence) key],
       (env.newEthereumSignature (signDigest env addr acc.GetSequence) key).mapError
         (fun err => .fmtWrap "failed to create Ethereum signature" err)⟩ := by
  unfold generateEthSig
  apply Outcome.ext_fields <;>
    simp [hpk, hdec, hkey, hq, hu, mapError_ok, signDigest]

/-- The run of `set-orchestrator-address` on the generating branch, up to validation: the
steps taken and the message built with the generated signature. -/
theorem setOrchestratorAddress_generated (env : Env) (flags fs : FlagSet)
    (arg0 arg1 arg2 pk : String) (ctx : ClientCtx) (orc : AccAddress) (bz : Bytes) (key : Nat)
    (res : Bytes) (acc : Account) (sig : Bytes)
    (hset : flags.Set FlagFrom arg0 = .ok fs) (hctx : env.getClientTxContext fs = .ok ctx)
    (horc : env.accAddressFromBech32 arg1 = .ok orc)
    (hsig : flags.GetString FlagOrchEthSig = .ok "")
    (hpk : flags.GetString FlagEthPrivKey = .ok pk) (hdec : hexutilDecode pk = .ok bz)
    (hkey : env.toECDSA bz = .ok key)
    (hq : env.queryAccount ctx (env.accAddressString ctx.GetFromAddress) = .ok res)
    (hu : env.unpackAny ctx res = .ok acc)
    (hs : env.newEthereumSignature (signDigest env ctx.GetFromAddress acc.GetSequence) key =
      .ok sig) :
    (SetOrchestratorAddressRunE env flags [arg0, arg1, arg2]).events =
      [Event.flagSet FlagFrom arg0, Event.clientContext fs, Event.flagRead FlagOrchEthSig,
       Event.flagRead FlagEthPrivKey,
       Event.accountQuery (env.accAddressString ctx.GetFromAddress),
       Event.sign (signDigest env ctx.GetFromAddress acc.GetSequence) key,
       Event.built (.NewMsgSetOrchestratorAddress ctx.GetFromAddress orc (HexToAddress arg2)
         sig),
       Event.validated (.NewMsgSetOrchestratorAddress ctx.GetFromAddress orc
         (HexToAddress arg2) sig)] ++
      (match env.validateBasic
          (.NewMsgSetOrchestratorAddress ctx.GetFromAddress orc (HexToAddress arg2) sig) with
        | none => [Event.broadcast
            (.NewMsgSetOrchestratorAddress ctx.GetFromAddress orc (HexToAddress arg2) sig)]
        | some _ => []) := by
  have h1 := GetString_Set hset FlagOrchEthSig (by decide)
  have h2 := GetString_Set hset FlagEthPrivKey (by decide)
  rw [hsig] at h1
  rw [hpk] at h2
  unfold SetOrchestratorAddressRunE
  simp only [Outcome.events_bind, Outcome.result_bind, Outcome.events_emit,
    Outcome.result_emit, Outcome.events_try, Outcome.result_try, List.append_nil,
    List.nil_append, hset, hctx, horc, h1, orchEthSigGiven_ok, if_true,
    generateEthSig_signs env fs ctx _ pk bz key res acc h2 hdec hkey hq hu, hs, mapError_ok]
  cases env.validateBasic
    (.NewMsgSetOrchestratorAddress ctx.GetFromAddress orc (HexToAddress arg2) sig) <;>
    simp [errResult]

/-- The run of `set-orchestrator-address` on the generating branch when the signer fails:
the digest was handed to the signer and the error is returned wrapped. -/
theorem setOrchestratorAddress_signer_failed (env : Env) (flags fs : FlagSet)
    (arg0 arg1 arg2 pk : String) (ctx : ClientCtx) (orc : AccAddress) (bz : Bytes) (key : Nat)
    (res : Bytes) (acc : Account) (e : GoError)
    (hset : flags.Set FlagFrom arg0 = .ok fs) (hctx : env.getClientTxContext fs = .ok ctx)
    (horc : env.accAddressFromBech32 arg1 = .ok orc)
    (hsig : flags.GetString FlagOrchEthSig = .ok "")
    (hpk : flags.GetString FlagEthPrivKey = .ok pk) (hdec : hexutilDecode pk = .ok bz)
    (hkey : env.toECDSA bz = .ok key)
    (hq : env.queryAccount ctx (env.accAddressString ctx.GetFromAddress) = .ok res)
    (hu : env.unpackAny ctx res = .ok acc)
    (hs : env.newEthereumSignature (signDigest env ctx.GetFromAddress acc.GetSequence) key =
      .error e) :
    (SetOrchestratorAddressRunE env flags [arg0, arg1, arg2]).events =
      [Event.flagSet FlagFrom arg0, Event.clientContext fs, Event.flagRead FlagOrchEthSig,
       Event.flagRead FlagEthPrivKey,
       Event.accountQuery (env.accAddressString ctx.GetFromAddress),
       Event.sign (signDigest env ctx.GetFromAddress acc.GetSequence) key] := by
  have h1 := GetString_Set hset FlagOrchEthSig (by decide)
  have h2 := GetString_Set hset FlagEthPrivKey (by decide)
  rw [hsig] at h1
  rw [hpk] at h2
  unfold SetOrchestratorAddressRunE
  simp only [Outcome.events_bind, Outcome.result_bind, Outcome.events_emit,
    Outcome.result_emit, Outcome.events_try, Outcome.result_try, List.append_nil,
    List.nil_append, hset, hctx, horc, h1, orchEthSigGiven_ok, if_true,
    generateEthSig_signs env fs ctx _ pk bz key res acc h2 hdec hkey hq hu, hs, mapError_error]
  simp

/-- The run of `set-orchestrator-address` with a signature given by `--orch-eth-sig`, up to
validation: the steps taken and the message built with the decoded signature. -/
theorem setOrchestratorAddress_given (env : Env) (flags fs : FlagSet)
    (arg0 arg1 arg2 s : String) (ctx : ClientCtx) (orc : AccAddress) (sig : Bytes)
    (hset : flags.Set FlagFrom arg0 = .ok fs) (hctx : env.getClientTxContext fs = .ok ctx)
    (horc : env.accAddressFromBech32 arg1 = .ok orc)
    (hsig : flags.GetString FlagOrchEthSig = .ok s) (hne : s ≠ "")
    (hdec : hexutilDecode s = .ok sig) :
    (SetOrchestratorAddressRunE env flags [arg0, arg1, arg2]).events =
      [Event.flagSet FlagFrom arg0, Event.clientContext fs, Event.flagRead FlagOrchEthSig,
       Event.built (.NewMsgSetOrchestratorAddress ctx.GetFromAddress orc (HexToAddress arg2)
         sig),
       Event.validated (.NewMsgSetOrchestratorAddress ctx.GetFromAddress orc
         (HexToAddress arg2) sig)] ++
      (match env.validateBasic
          (.NewMsgSetOrchestratorAddress ctx.GetFromAddress orc (HexToAddress arg2) sig) with
        | none => [Event.broadcast
            (.NewMsgSetOrchestratorAddress ctx.GetFromAddress orc (HexToAddress arg2) sig)]
        | some _ => []) := by
  have h1 := GetString_Set hset FlagOrchEthSig (by decide)
  rw [hsig] at h1
  unfold SetOrchestratorAddressRunE
  simp only [Outcome.events_bind, Outcome.result_bind, Outcome.events_emit,
    Outcome.result_emit, Outcome.events_try, Outcome.result_try, List.append_nil,
    List.nil_append, hset, hctx, horc, h1, orchEthSigGiven_ok, hne, if_false, hdec]
  cases env.validateBasic
    (.NewMsgSetOrchestratorAddress ctx.GetFromAddress orc (HexToAddress arg2) sig) <;>
    simp [errResult]

/-- The result of a run of `set-orchestrator-address` whose message was built: the error of
`ValidateBasic` if there is one, else what the broadcaster returns. -/
theorem setOrchestratorAddress_result_given (env : Env) (flags fs : FlagSet)
    (arg0 arg1 arg2 s : String) (ctx : ClientCtx) (orc : AccAddress) (sig : Bytes)
    (hset : flags.Set FlagFrom arg0 = .ok fs) (hctx : env.getClientTxContext fs = .ok ctx)
    (horc : env.accAddressFromBech32 arg1 = .ok orc)
    (hsig : flags.GetString FlagOrchEthSig = .ok s) (hne : s ≠ "")
    (hdec : hexutilDecode s = .ok sig) :
    (SetOrchestratorAddressRunE env flags [arg0, arg1, arg2]).result =
      (match env.validateBasic
          (.NewMsgSetOrchestratorAddress ctx.GetFromAddress orc (HexToAddress arg2) sig) with
        | none => errResult (env.generateOrBroadcastTxCLI ctx fs
            (.NewMsgSetOrchestratorAddress ctx.GetFromAddress orc (HexToAddress arg2) sig))
        | some e => .error e) := by
  have h1 := GetString_Set hset FlagOrchEthSig (by decide)
  rw [hsig] at h1
  unfold SetOrchestratorAddressRunE
  simp only [Outcome.events_bind, Outcome.result_bind, Outcome.events_emit,
    Outcome.result_emit, Outcome.events_try, Outcome.result_try, Outcome.result_check,
    List.append_nil, List.nil_append, hset, hctx, horc, h1, orchEthSigGiven_ok, hne, if_false,
    hdec]
  cases env.validateBasic
    (.NewMsgSetOrchestratorAddress ctx.GetFromAddress orc (HexToAddress arg2) sig) <;>
    simp [errResult]

/-- C1: in `set-orchestrator-address`, every signing step signs Keccak256 of the proto
encoding of the sign message made of the validator address of the sending account (the
`--from` account, which is `args[0]`) and the sequence number the account query returned for
that account, whatever `args[1]` and `args[2]` are; and on the `--eth-priv-key` path, for
every sender and every sequence the query returns, the command does sign: once the key
decodes and converts and the account is found, exactly that digest is handed to the signer
with that key, and the signature it returns is the one in the message built. -/
theorem setOrchestratorAddress_signed_digest (env : Env) (flags : FlagSet) :
    (∀ (args : List String) (digest : Bytes) (key : Nat),
      Event.sign digest key ∈ (SetOrchestratorAddressRunE env flags args).events →
      ∃ arg0 arg1 arg2 fs clientCtx res acc,
        args = [arg0, arg1, arg2] ∧ flags.Set FlagFrom arg0 = .ok fs ∧
        env.getClientTxContext fs = .ok clientCtx ∧
        env.queryAccount clientCtx (env.accAddressString clientCtx.GetFromAddress) = .ok res ∧
        env.unpackAny clientCtx res = .ok acc ∧
        digest = env.keccak256Hash (env.marshalSignMsg
          { ValidatorAddress := env.valAddressString clientCtx.GetFromAddress,
            Nonce := acc.GetSequence }) ∧
        ∀ arg1' arg2' digest' key',
          Event.sign digest' key' ∈
            (SetOrchestratorAddressRunE env flags [arg0, arg1', arg2']).events →
          digest' = digest) ∧
    (∀ (arg0 arg1 arg2 pk : String) (fs : FlagSet) (clientCtx : ClientCtx) (orc : AccAddress)
        (bz : Bytes) (ethPrivKey : Nat) (res : Bytes) (acc : Account),
      flags.Set FlagFrom arg0 = .ok fs → env.getClientTxContext fs = .ok clientCtx →
      env.accAddressFromBech32 arg1 = .ok orc →
      flags.GetString FlagOrchEthSig = .ok "" → flags.GetString FlagEthPrivKey = .ok pk →
      hexutilDecode pk = .ok bz → env.toECDSA bz = .ok ethPrivKey →
      env.queryAccount clientCtx (env.accAddressString clientCtx.GetFromAddress) = .ok res →
      env.unpackAny clientCtx res = .ok acc →
      Event.sign (env.keccak256Hash (env.marshalSignMsg
          { ValidatorAddress := env.valAddressString clientCtx.GetFromAddress,
            Nonce := acc.GetSequence })) ethPrivKey ∈
        (SetOrchestratorAddressRunE env flags [arg0, arg1, arg2]).events ∧
      (∀ d k, Event.sign d k ∈ (SetOrchestratorAddressRunE env flags [arg0, arg1, arg2]).events →
        d = env.keccak256Hash (env.marshalSignMsg
          { ValidatorAddress := env.valAddressString clientCtx.GetFromAddress,
            Nonce := acc.GetSequence }) ∧ k = ethPrivKey) ∧
      (∀ sig, env.newEthereumSignature (env.keccak256Hash (env.marshalSignMsg
          { ValidatorAddress := env.valAddressString clientCtx.GetFromAddress,
            Nonce := acc.GetSequence })) ethPrivKey = .ok sig →
        Event.built (.NewMsgSetOrchestratorAddress clientCtx.GetFromAddress orc
          (HexToAddress arg2) sig) ∈
          (SetOrchestratorAddressRunE env flags [arg0, arg1, arg2]).events)) := by
  constructor
  · intro args digest key h
    obtain ⟨arg0, arg1, arg2, fs, ctx, res, acc, hargs, hset, hctx, hq, hu, hd⟩ :=
      sign_event_digest env flags args digest key h
    refine ⟨arg0, arg1, arg2, fs, ctx, res, acc, hargs, hset, hctx, hq, hu, hd, ?_⟩
    intro arg1' arg2' digest' key' h'
    obtain ⟨b0, b1, b2, fs', ctx', res', acc', hargs', hset', hctx', hq', hu', hd'⟩ :=
      sign_event_digest env flags _ digest' key' h'
    simp only [List.cons.injEq, and_true] at hargs'
    obtain ⟨rfl, rfl, rfl⟩ := hargs'
    rw [hset] at hset'
    cases hset'
    rw [hctx] at hctx'
    cases hctx'
    rw [hq] at hq'
    cases hq'
    rw [hu] at hu'
    cases hu'
    rw [hd, hd']
  · intro arg0 arg1 arg2 pk fs ctx orc bz key res acc hset hctx horc hsig hpk hdec hkey hq hu
    cases hs : env.newEthereumSignature (signDigest env ctx.GetFromAddress acc.GetSequence)
      key with
    | error e =>
      have hev := setOrchestratorAddress_signer_failed env flags fs arg0 arg1 arg2 pk ctx orc
        bz key res acc e hset hctx horc hsig hpk hdec hkey hq hu hs
      rw [hev]
      refine ⟨by simp [signDigest], fun d k hdk => by simpa [signDigest] using hdk, ?_⟩
      intro sig hsig'
      rw [show env.keccak256Hash _ = signDigest env ctx.GetFromAddress acc.GetSequence from rfl,
        hs] at hsig'
      cases hsig'
    | ok sig =>
      have hev := setOrchestratorAddress_generated env flags fs arg0 arg1 arg2 pk ctx orc
        bz key res acc sig hset hctx horc hsig hpk hdec hkey hq hu hs
      have h3 : ∀ sig', env.newEthereumSignature (env.keccak256Hash (env.marshalSignMsg
          { ValidatorAddress := env.valAddressString ctx.GetFromAddress,
            Nonce := acc.GetSequence })) key = .ok sig' → sig' = sig := by
        intro sig' hsig'
        rw [show env.keccak256Hash _ = signDigest env ctx.GetFromAddress acc.GetSequence
          from rfl, hs] at hsig'
        cases hsig'
        rfl
      rw [hev]
      cases env.validateBasic
        (.NewMsgSetOrchestratorAddress ctx.GetFromAddress orc (HexToAddress arg2) sig)
      · refine ⟨by simp [signDigest], fun d k hdk => by simpa [signDigest] using hdk, ?_⟩
        intro sig' hsig'
        rw [h3 sig' hsig']
        simp
      · refine ⟨by simp [signDigest], fun d k hdk => by simpa [signDigest] using hdk, ?_⟩
        intro sig' hsig'
        rw [h3 sig' hsig']
        simp

/-- C1, instance: in the example environment the run with a private key signs the digest of
the validator address of the account named by `--from` and its sequence 7, with the key of
the flag. -/
theorem setOrchestratorAddress_signed_digest_witness :
    FlagSet.GetString [(FlagOrchEthSig, ""), (FlagEthPrivKey,
        "0x0101010101010101010101010101010101010101010101010101010101010101"),
        (FlagFrom, "")] FlagOrchEthSig = .ok "" ∧
    exampleEnv.unpackAny ⟨goBytes "alice", "peggy-1"⟩ (goBytes "alice") =
      .ok ⟨goBytes "alice", 1, 7⟩ ∧
    Event.sign (exampleEnv.keccak256Hash (exampleEnv.marshalSignMsg
        { ValidatorAddress := exampleEnv.valAddressString (goBytes "alice"), Nonce := 7 }))
        454086624460063511464984254936031011189294057512315937409637584344757371137 ∈
      (SetOrchestratorAddressRunE exampleEnv [(FlagOrchEthSig, ""), (FlagEthPrivKey,
        "0x0101010101010101010101010101010101010101010101010101010101010101"),
        (FlagFrom, "")] ["alice", "orch", "0x1"]).events :=
  ⟨by decide, by decide,
   ((setOrchestratorAddress_signed_digest exampleEnv
      [(FlagOrchEthSig, ""), (FlagEthPrivKey,
        "0x0101010101010101010101010101010101010101010101010101010101010101"),
        (FlagFrom, "")]).2 "alice" "orch" "0x1"
      "0x0101010101010101010101010101010101010101010101010101010101010101"
      [(FlagOrchEthSig, ""), (FlagEthPrivKey,
        "0x0101010101010101010101010101010101010101010101010101010101010101"),
        (FlagFrom, "alice")]
      ⟨goBytes "alice", "peggy-1"⟩ (goBytes "orch")
      (List.replicate 32 1)
      454086624460063511464984254936031011189294057512315937409637584344757371137
      (goBytes "alice") ⟨goBytes "alice", 1, 7⟩
      (by decide) (by decide) (by decide) (by decide) (by decide) (by decide) (by decide)
      (by decide) (by decide)).1⟩

/-- Where the signature of a built message comes from: with a non-empty `--orch-eth-sig` it
is the hex decoding of the flag and the key flag is not read, no account is queried and
nothing is signed; with an empty one it is made with the key decoded from
`--eth-priv-key`. -/
theorem signature_of_built (env : Env) (flags : FlagSet)
    (args : List String) :
    (∀ s, flags.GetString FlagOrchEthSig = .ok s → s ≠ "" →
      (∀ m, Event.built m ∈ (SetOrchestratorAddressRunE env flags args).events →
        ∃ sender orc eth sig,
          m = .NewMsgSetOrchestratorAddress sender orc eth sig ∧ hexutilDecode s = .ok sig) ∧
      Event.flagRead FlagEthPrivKey ∉ (SetOrchestratorAddressRunE env flags args).events ∧
      (∀ a, Event.accountQuery a ∉ (SetOrchestratorAddressRunE env flags args).events) ∧
      (∀ d k, Event.sign d k ∉ (SetOrchestratorAddressRunE env flags args).events)) ∧
    (flags.GetString FlagOrchEthSig = .ok "" →
      ∀ m, Event.built m ∈ (SetOrchestratorAddressRunE env flags args).events →
        ∃ sender orc eth sig pk bz key digest,
          m = .NewMsgSetOrchestratorAddress sender orc eth sig ∧
          flags.GetString FlagEthPrivKey = .ok pk ∧ hexutilDecode pk = .ok bz ∧
          env.toECDSA bz = .ok key ∧
          Event.sign digest key ∈ (SetOrchestratorAddressRunE env flags args).events ∧
          env.newEthereumSignature digest key = .ok sig) := by
  unfold SetOrchestratorAddressRunE generateEthSig
  split
  · rename_i arg0 arg1 arg2
    simp only [Outcome.events_bind, Outcome.result_bind, Outcome.events_emit,
      Outcome.result_emit, Outcome.events_try, Outcome.result_try, Outcome.events_tryWrap,
      Outcome.result_tryWrap, Outcome.events_check, Outcome.result_check, List.append_nil,
      List.nil_append]
    rcases hset : flags.Set FlagFrom arg0 with e | fs
    · simp
    · have h1 := GetString_Set hset FlagOrchEthSig (by decide)
      have h2 := GetString_Set hset FlagEthPrivKey (by decide)
      have h3 : FlagEthPrivKey ≠ FlagOrchEthSig := by decide
      simp only [h1, h2]
      constructor
      · intro s hs hne
        simp only [hs, orchEthSigGiven_ok, hne, if_false]
        repeat (any_goals split) <;> (try simp_all)
      · intro hs
        simp only [hs, orchEthSigGiven_ok, if_true]
        repeat (any_goals split) <;> (try simp_all)
  · simp



/-- C2: `--orch-eth-sig` takes precedence in `set-orchestrator-address`. When the flag is a
non-empty string, the signature of any message built is the hex decoding of the flag,
`--eth-priv-key` is not read, no account is queried and nothing is signed, and once the
flag decodes the message with the decoded signature is built; when the flag is empty, the
signature of any message built is the one made with the key decoded from `--eth-priv-key`,
and once the key decodes and converts, the account is found and the signer returns, the
message with the generated signature is built. -/
theorem setOrchestratorAddress_signature_source (env : Env) (flags : FlagSet)
    (args : List String) :
    (∀ s, flags.GetString FlagOrchEthSig = .ok s → s ≠ "" →
      (∀ m, Event.built m ∈ (SetOrchestratorAddressRunE env flags args).events →
        ∃ sender orc eth sig,
          m = .NewMsgSetOrchestratorAddress sender orc eth sig ∧ hexutilDecode s = .ok sig) ∧
      Event.flagRead FlagEthPrivKey ∉ (SetOrchestratorAddressRunE env flags args).events ∧
      (∀ a, Event.accountQuery a ∉ (SetOrchestratorAddressRunE env flags args).events) ∧
      (∀ d k, Event.sign d k ∉ (SetOrchestratorAddressRunE env flags args).events)) ∧
    (flags.GetString FlagOrchEthSig = .ok "" →
      ∀ m, Event.built m ∈ (SetOrchestratorAddressRunE env flags args).events →
        ∃ sender orc eth sig pk bz key digest,
          m = .NewMsgSetOrchestratorAddress sender orc eth sig ∧
          flags.GetString FlagEthPrivKey = .ok pk ∧ hexutilDecode pk = .ok bz ∧
          env.toECDSA bz = .ok key ∧
          Event.sign digest key ∈ (SetOrchestratorAddressRunE env flags args).events ∧
          env.newEthereumSignature digest key = .ok sig) ∧
    (∀ (arg0 arg1 arg2 s : String) (fs : FlagSet) (clientCtx : ClientCtx) (orc : AccAddress)
        (sig : Bytes),
      args = [arg0, arg1, arg2] → flags.Set FlagFrom arg0 = .ok fs →
      env.getClientTxContext fs = .ok clientCtx → env.accAddressFromBech32 arg1 = .ok orc →
      flags.GetString FlagOrchEthSig = .ok s → s ≠ "" → hexutilDecode s = .ok sig →
      ∀ m, Event.built m ∈ (SetOrchestratorAddressRunE env flags args).events ↔
        m = .NewMsgSetOrchestratorAddress clientCtx.GetFromAddress orc (HexToAddress arg2)
          sig) ∧
    (∀ (arg0 arg1 arg2 pk : String) (fs : FlagSet) (clientCtx : ClientCtx) (orc : AccAddress)
        (bz : Bytes) (ethPrivKey : Nat) (res : Bytes) (acc : Account) (sig : Bytes),
      args = [arg0, arg1, arg2] → flags.Set FlagFrom arg0 = .ok fs →
      env.getClientTxContext fs = .ok clientCtx → env.accAddressFromBech32 arg1 = .ok orc →
      flags.GetString FlagOrchEthSig = .ok "" → flags.GetString FlagEthPrivKey = .ok pk →
      hexutilDecode pk = .ok bz → env.toECDSA bz = .ok ethPrivKey →
      env.queryAccount clientCtx (env.accAddressString clientCtx.GetFromAddress) = .ok res →
      env.unpackAny clientCtx res = .ok acc →
      env.newEthereumSignature (signDigest env clientCtx.GetFromAddress acc.GetSequence)
        ethPrivKey = .ok sig →
      ∀ m, Event.built m ∈ (SetOrchestratorAddressRunE env flags args).events ↔
        m = .NewMsgSetOrchestratorAddress clientCtx.GetFromAddress orc (HexToAddress arg2)
          sig) := by
  refine ⟨(signature_of_built env flags args).1, (signature_of_built env flags args).2, ?_, ?_⟩
  · rintro arg0 arg1 arg2 s fs ctx orc sig rfl hset hctx horc hsig hne hdec m
    rw [setOrchestratorAddress_given env flags fs arg0 arg1 arg2 s ctx orc sig hset hctx horc
      hsig hne hdec]
    cases env.validateBasic
      (.NewMsgSetOrchestratorAddress ctx.GetFromAddress orc (HexToAddress arg2) sig) <;>
      simp
  · rintro arg0 arg1 arg2 pk fs ctx orc bz key res acc sig rfl hset hctx horc hsig hpk hdec
      hkey hq hu hs m
    rw [setOrchestratorAddress_generated env flags fs arg0 arg1 arg2 pk ctx orc bz key res acc
      sig hset hctx horc hsig hpk hdec hkey hq hu hs]
    cases env.validateBasic
      (.NewMsgSetOrchestratorAddress ctx.GetFromAddress orc (HexToAddress arg2) sig) <;>
      simp

/-- C2, instance: in the example environment, with `--orch-eth-sig 0xabcd` the private key
flag is not read and the message built carries the decoded bytes; with the flag empty and a
private key given, the message built carries the signature the signer made. -/
theorem setOrchestratorAddress_signature_source_witness :
    FlagSet.GetString [(FlagOrchEthSig, "0xabcd"), (FlagEthPrivKey, ""), (FlagFrom, "")]
      FlagOrchEthSig = .ok "0xabcd" ∧
    Event.flagRead FlagEthPrivKey ∉ (SetOrchestratorAddressRunE exampleEnv
      [(FlagOrchEthSig, "0xabcd"), (FlagEthPrivKey, ""), (FlagFrom, "")]
      ["alice", "orch", "0x1"]).events ∧
    Event.built (.NewMsgSetOrchestratorAddress (goBytes "alice") (goBytes "orch")
        (HexToAddress "0x1") [171, 205]) ∈
      (SetOrchestratorAddressRunE exampleEnv
        [(FlagOrchEthSig, "0xabcd"), (FlagEthPrivKey, ""), (FlagFrom, "")]
        ["alice", "orch", "0x1"]).events ∧
    Event.built (.NewMsgSetOrchestratorAddress (goBytes "alice") (goBytes "orch")
        (HexToAddress "0x1") [14, 56, 1]) ∈
      (SetOrchestratorAddressRunE exampleEnv
        [(FlagOrchEthSig, ""), (FlagEthPrivKey,
          "0x0101010101010101010101010101010101010101010101010101010101010101"),
          (FlagFrom, "")]
        ["alice", "orch", "0x1"]).events :=
  ⟨by decide,
   ((setOrchestratorAddress_signature_source exampleEnv
      [(FlagOrchEthSig, "0xabcd"), (FlagEthPrivKey, ""), (FlagFrom, "")]
      ["alice", "orch", "0x1"]).1 "0xabcd" (by decide) (by decide)).2.1,
   ((setOrchestratorAddress_signature_source exampleEnv
      [(FlagOrchEthSig, "0xabcd"), (FlagEthPrivKey, ""), (FlagFrom, "")]
      ["alice", "orch", "0x1"]).2.2.1 "alice" "orch" "0x1" "0xabcd"
      [(FlagOrchEthSig, "0xabcd"), (FlagEthPrivKey, ""), (FlagFrom, "alice")]
      ⟨goBytes "alice", "peggy-1"⟩ (goBytes "orch") [171, 205]
      rfl (by decide) (by decide) (by decide) (by decide) (by decide) (by decide) _).2 rfl,
   ((setOrchestratorAddress_signature_source exampleEnv
      [(FlagOrchEthSig, ""), (FlagEthPrivKey,
        "0x0101010101010101010101010101010101010101010101010101010101010101"),
        (FlagFrom, "")]
      ["alice", "orch", "0x1"]).2.2.2 "alice" "orch" "0x1"
      "0x0101010101010101010101010101010101010101010101010101010101010101"
      [(FlagOrchEthSig, ""), (FlagEthPrivKey,
        "0x0101010101010101010101010101010101010101010101010101010101010101"),
        (FlagFrom, "alice")]
      ⟨goBytes "alice", "peggy-1"⟩ (goBytes "orch") (List.replicate 32 1)
      454086624460063511464984254936031011189294057512315937409637584344757371137
      (goBytes "alice") ⟨goBytes "alice", 1, 7⟩ [14, 56, 1]
      rfl (by decide) (by decide) (by decide) (by decide) (by decide) (by decide) (by decide)
      (by decide) (by decide) (by decide) _).2 rfl⟩

theorem sendToEth_validated (env : Env) (fs : FlagSet) (args : List String) :
    Validated env (SendToEthRunE env fs args) := by
  unfold Validated SendToEthRunE
  split
  · simp only [Outcome.events_bind, Outcome.result_bind, Outcome.events_emit,
      Outcome.result_emit, Outcome.events_try, Outcome.result_try, Outcome.events_tryWrap,
      Outcome.result_tryWrap, Outcome.events_check, Outcome.result_check, List.append_nil,
      List.nil_append]
    repeat (any_goals split) <;> (try simp_all)
  · simp

theorem requestBatch_validated (env : Env) (fs : FlagSet) (args : List String) :
    Validated env (RequestBatchRunE env fs args) := by
  unfold Validated RequestBatchRunE
  split
  · simp only [Outcome.events_bind, Outcome.result_bind, Outcome.events_emit,
      Outcome.result_emit, Outcome.events_try, Outcome.result_try, Outcome.events_tryWrap,
      Outcome.result_tryWrap, Outcome.events_check, Outcome.result_check, List.append_nil,
      List.nil_append]
    repeat (any_goals split) <;> (try simp_all)
  · simp

set_option maxHeartbeats 2000000 in
theorem setOrchestratorAddress_validated (env : Env) (fs : FlagSet) (args : List String) :
    Validated env (SetOrchestratorAddressRunE env fs args) := by
  unfold Validated SetOrchestratorAddressRunE generateEthSig
  split
  · simp only [Outcome.events_bind, Outcome.result_bind, Outcome.events_emit,
      Outcome.result_emit, Outcome.events_try, Outcome.result_try, Outcome.events_tryWrap,
      Outcome.result_tryWrap, Outcome.events_check, Outcome.result_check, List.append_nil,
      List.nil_append]
    repeat (any_goals split) <;> (try simp_all)
  · simp


theorem validated_broadcast {env : Env} {o : Outcome Unit} (h : Validated env o) :
    (∀ m, Event.broadcast m ∈ o.events → Event.built m ∈ o.events ∧ env.validateBasic m = none) ∧
    (∀ m e, Event.built m ∈ o.events → env.validateBasic m = some e →
      o.result = .error e ∧ ∀ m', Event.broadcast m' ∉ o.events) := by
  rcases h with ⟨hb, hbr, -⟩ | ⟨m0, hb, ⟨hv, hbr⟩ | ⟨e0, hv, hres, hbr⟩⟩
  · exact ⟨fun m hm => absurd hm (hbr m), fun m e hm => absurd hm (hb m)⟩
  · refine ⟨fun m hm => ?_, fun m e hm hve => ?_⟩
    · have := (hbr m).1 hm
      subst this
      exact ⟨(hb _).2 rfl, hv⟩
    · have := (hb m).1 hm
      subst this
      rw [hv] at hve
      cases hve
  · refine ⟨fun m hm => absurd hm (hbr m), fun m e hm hve => ?_⟩
    have := (hb m).1 hm
    subst this
    rw [hv] at hve
    cases hve
    exact ⟨hres, hbr⟩

/-- C3: each of the three commands reaches `tx.GenerateOrBroadcastTxCLI` only with the
message it built and only after `ValidateBasic` of that message returned nil; when
`ValidateBasic` of the built message returns an error the command returns exactly that error
and nothing is generated or broadcast. -/
theorem broadcast_only_after_validateBasic (storeKey : String) (c : Command)
    (hc : c ∈ (GetTxCmd storeKey).commands) (env : Env) (fs : FlagSet) (args : List String) :
    (∀ m, Event.broadcast m ∈ (c.RunE env fs args).events →
      Event.built m ∈ (c.RunE env fs args).events ∧ env.validateBasic m = none) ∧
    (∀ m e, Event.built m ∈ (c.RunE env fs args).events → env.validateBasic m = some e →
      (c.RunE env fs args).result = .error e ∧
      ∀ m', Event.broadcast m' ∉ (c.RunE env fs args).events) := by
  simp only [GetTxCmd, List.mem_cons, List.mem_singleton, List.not_mem_nil, or_false] at hc
  rcases hc with rfl | rfl | rfl
  · exact validated_broadcast (sendToEth_validated env fs args)
  · exact validated_broadcast (requestBatch_validated env fs args)
  · exact validated_broadcast (setOrchestratorAddress_validated env fs args)

/-- C3, instance: `send-to-eth` with an empty destination in the example environment builds
a message whose `ValidateBasic` fails; the command returns that error and broadcasts
nothing. -/
theorem broadcast_only_after_validateBasic_witness :
    CmdSendToEth ∈ (GetTxCmd "peggy").commands ∧
    exampleEnv.validateBasic
      (.NewMsgSendToEth (goBytes "bob") "" ⟨"uumee", 10⟩ ⟨"uumee", 1⟩) =
        some (.base "empty destination") ∧
    (CmdSendToEth.RunE exampleEnv [(FlagFrom, "bob")] ["", "10uumee", "1uumee"]).result =
        .error (.base "empty destination") ∧
    ∀ m', Event.broadcast m' ∉
      (CmdSendToEth.RunE exampleEnv [(FlagFrom, "bob")] ["", "10uumee", "1uumee"]).events :=
  ⟨List.Mem.head _, by decide,
   (broadcast_only_after_validateBasic "peggy" CmdSendToEth (List.Mem.head _) exampleEnv
      [(FlagFrom, "bob")] ["", "10uumee", "1uumee"]).2
      (.NewMsgSendToEth (goBytes "bob") "" ⟨"uumee", 10⟩ ⟨"uumee", 1⟩)
      (.base "empty destination") (by decide) (by decide)⟩


/-- C9: `send-to-eth` rejects a bad amount or fee before any message is built. If `args[1]`
does not parse as a coin, no message is built or broadcast and, the client context being
available, the error returned is the parse error wrapped with "invalid amount", whatever
`args[2]` is; otherwise, if `args[2]` does not parse, no message is built or broadcast and
the error is the parse error wrapped with "invalid bridge fee"; when both parse, the one
message built is `NewMsgSendToEth(from address, args[0], amount, bridgeFee)`. -/
theorem sendToEth_amount_then_fee (env : Env) (flags : FlagSet) (arg0 arg1 arg2 : String) :
    (∀ e, env.parseCoinNormalized arg1 = .error e →
      (∀ m, Event.built m ∉ (SendToEthRunE env flags [arg0, arg1, arg2]).events ∧
        Event.broadcast m ∉ (SendToEthRunE env flags [arg0, arg1, arg2]).events) ∧
      (∀ ctx, env.getClientTxContext flags = .ok ctx →
        (SendToEthRunE env flags [arg0, arg1, arg2]).result =
          .error (.sdkWrap e "invalid amount"))) ∧
    (∀ amount e, env.parseCoinNormalized arg1 = .ok amount →
      env.parseCoinNormalized arg2 = .error e →
      (∀ m, Event.built m ∉ (SendToEthRunE env flags [arg0, arg1, arg2]).events ∧
        Event.broadcast m ∉ (SendToEthRunE env flags [arg0, arg1, arg2]).events) ∧
      (∀ ctx, env.getClientTxContext flags = .ok ctx →
        (SendToEthRunE env flags [arg0, arg1, arg2]).result =
          .error (.sdkWrap e "invalid bridge fee"))) ∧
    (∀ ctx amount bridgeFee, env.getClientTxContext flags = .ok ctx →
      env.parseCoinNormalized arg1 = .ok amount →
      env.parseCoinNormalized arg2 = .ok bridgeFee →
      ∀ m, Event.built m ∈ (SendToEthRunE env flags [arg0, arg1, arg2]).events ↔
        m = .NewMsgSendToEth ctx.GetFromAddress arg0 amount bridgeFee) := by
  unfold SendToEthRunE
  simp only [Outcome.events_bind, Outcome.result_bind, Outcome.events_emit,
    Outcome.result_emit, Outcome.events_try, Outcome.result_try, Outcome.events_tryWrap,
    Outcome.result_tryWrap, Outcome.events_check, Outcome.result_check, List.append_nil,
    List.nil_append]
  refine ⟨?_, ?_, ?_⟩
  · intro e he
    simp only [he]
    repeat (any_goals split) <;> (try simp_all)
  · intro amount e ha he
    simp only [ha, he]
    repeat (any_goals split) <;> (try simp_all)
  · intro ctx amount bridgeFee hc ha hf
    simp only [hc, ha, hf]
    repeat (any_goals split) <;> (try simp_all)

/-- C9, instance: in the example environment, with both the amount and the fee malformed,
the error reported is the one of the amount. -/
theorem sendToEth_amount_then_fee_witness :
    exampleEnv.parseCoinNormalized "uumee" =
      .error (.base "invalid decimal coin expression: uumee") ∧
    exampleEnv.getClientTxContext [(FlagFrom, "bob")] = .ok ⟨goBytes "bob", "peggy-1"⟩ ∧
    (SendToEthRunE exampleEnv [(FlagFrom, "bob")] ["0xdead", "uumee", "1"]).result =
      .error (.sdkWrap (.base "invalid decimal coin expression: uumee") "invalid amount") :=
  ⟨by decide, by decide,
   ((sendToEth_amount_then_fee exampleEnv [(FlagFrom, "bob")] "0xdead" "uumee" "1").1
      (.base "invalid decimal coin expression: uumee") (by decide)).2
      ⟨goBytes "bob", "peggy-1"⟩ (by decide)⟩


/-- With an empty `--eth-priv-key` the generating branch stops at the hex decoder. -/
theorem generateEthSig_empty_key (env : Env) (fs : FlagSet) (ctx : ClientCtx)
    (addr : AccAddress) (h : fs.GetString FlagEthPrivKey = .ok "") :
    generateEthSig env fs ctx addr =
      ⟨[Event.flagRead FlagEthPrivKey],
        .error (.fmtWrap "failed to parse Ethereum private key" ErrEmptyString)⟩ := by
  have hdec : hexutilDecode "" = .error ErrEmptyString := by decide
  unfold generateEthSig
  apply Outcome.ext_fields <;>
    simp [h, hdec, mapError_error]

/-- C10: `set-orchestrator-address` with an empty `--orch-eth-sig` builds a message only
when `--eth-priv-key` hex-decodes and converts to a private key. With both flags empty the
command returns an error and builds and broadcasts no message; once the `--from` flag is
set, the client context obtained and `args[1]` parsed, that error is
"failed to parse Ethereum private key" wrapping the empty-string error of the decoder. -/
theorem setOrchestratorAddress_needs_signature (env : Env) (flags : FlagSet)
    (args : List String) (hsig : flags.GetString FlagOrchEthSig = .ok "") :
    (∀ m, Event.built m ∈ (SetOrchestratorAddressRunE env flags args).events →
      ∃ pk bz key, flags.GetString FlagEthPrivKey = .ok pk ∧ hexutilDecode pk = .ok bz ∧
        env.toECDSA bz = .ok key) ∧
    (flags.GetString FlagEthPrivKey = .ok "" →
      (∀ m, Event.built m ∉ (SetOrchestratorAddressRunE env flags args).events ∧
        Event.broadcast m ∉ (SetOrchestratorAddressRunE env flags args).events) ∧
      (∃ e, (SetOrchestratorAddressRunE env flags args).result = .error e) ∧
      (∀ arg0 arg1 arg2 fs ctx orc, args = [arg0, arg1, arg2] →
        flags.Set FlagFrom arg0 = .ok fs → env.getClientTxContext fs = .ok ctx →
        env.accAddressFromBech32 arg1 = .ok orc →
        (SetOrchestratorAddressRunE env flags args).result =
          .error (.fmtWrap "failed to parse Ethereum private key" ErrEmptyString))) := by
  unfold SetOrchestratorAddressRunE
  split
  · rename_i arg0 arg1 arg2
    rcases hset : flags.Set FlagFrom arg0 with e | fs
    · simp only [Outcome.events_bind, Outcome.result_bind, Outcome.events_emit,
        Outcome.result_emit, Outcome.events_try, Outcome.result_try, List.append_nil]
      refine ⟨by simp, fun _ => ⟨by simp, by simp, ?_⟩⟩
      rintro a0 a1 a2 fs ctx orc h hset'
      simp only [List.cons.injEq, and_true] at h
      obtain ⟨rfl, rfl, rfl⟩ := h
      rw [hset] at hset'
      cases hset'
    · have h1 := GetString_Set hset FlagOrchEthSig (by decide)
      have h2 := GetString_Set hset FlagEthPrivKey (by decide)
      constructor
      · unfold generateEthSig
        simp only [Outcome.events_bind, Outcome.result_bind, Outcome.events_emit,
          Outcome.result_emit, Outcome.events_try, Outcome.result_try, Outcome.events_tryWrap,
          Outcome.result_tryWrap, Outcome.events_check, Outcome.result_check, List.append_nil,
          List.nil_append, h1, h2, hsig, orchEthSigGiven_ok, if_true]
        repeat (any_goals split) <;> (try simp_all)
      · intro hpk
        rw [hpk] at h2
        simp only [Outcome.events_bind, Outcome.result_bind, Outcome.events_emit,
          Outcome.result_emit, Outcome.events_try, Outcome.result_try, Outcome.events_tryWrap,
          Outcome.result_tryWrap, Outcome.events_check, Outcome.result_check, List.append_nil,
          List.nil_append, h1, hsig, orchEthSigGiven_ok, if_true,
          generateEthSig_empty_key env fs _ _ h2]
        refine ⟨?_, ?_, ?_⟩
        · repeat (any_goals split) <;> (try simp_all)
        · repeat (any_goals split) <;> (try simp_all)
        · rintro a0 a1 a2 fs' ctx orc h hset' hctx horc
          simp only [List.cons.injEq, and_true] at h
          obtain ⟨rfl, rfl, rfl⟩ := h
          rw [hset] at hset'
          cases hset'
          simp [hctx, horc]
  · rename_i hargs
    refine ⟨by simp, fun _ => ⟨by simp, by simp, ?_⟩⟩
    rintro a0 a1 a2 _ _ _ rfl
    exact absurd rfl (hargs a0 a1 a2)

/-- C10, instance: the command with its default flags in the example environment. -/
theorem setOrchestratorAddress_needs_signature_witness :
    FlagSet.GetString CmdSetOrchestratorAddress.Flags FlagOrchEthSig = .ok "" ∧
    FlagSet.GetString CmdSetOrchestratorAddress.Flags FlagEthPrivKey = .ok "" ∧
    (SetOrchestratorAddressRunE exampleEnv CmdSetOrchestratorAddress.Flags
      ["alice", "orch", "0x0000000000000000000000000000000000000001"]).result =
        .error (.fmtWrap "failed to parse Ethereum private key" ErrEmptyString) :=
  ⟨by decide, by decide,
   ((setOrchestratorAddress_needs_signature exampleEnv CmdSetOrchestratorAddress.Flags
      ["alice", "orch", "0x0000000000000000000000000000000000000001"] (by decide)).2
      (by decide)).2.2 "alice" "orch" "0x0000000000000000000000000000000000000001"
      [(FlagOrchEthSig, ""), (FlagEthPrivKey, ""), (FlagFrom, "alice")]
      ⟨goBytes "alice", "peggy-1"⟩ (goBytes "orch") rfl (by decide) (by decide) (by decide)⟩


/-- The Ethereum address argument of `set-orchestrator-address` enters the run only through
`HexToAddress`. -/
theorem setOrchestratorAddress_congr (env : Env) (flags : FlagSet) (arg0 arg1 a b : String)
    (h : HexToAddress a = HexToAddress b) :
    SetOrchestratorAddressRunE env flags [arg0, arg1, a] =
      SetOrchestratorAddressRunE env flags [arg0, arg1, b] := by
  unfold SetOrchestratorAddressRunE
  simp only [h]

theorem built_setOrchestratorAddress (env : Env) (flags : FlagSet) (arg0 arg1 arg2 : String)
    (m : Msg)
    (h : Event.built m ∈ (SetOrchestratorAddressRunE env flags [arg0, arg1, arg2]).events) :
    ∃ sender orc sig, m = .NewMsgSetOrchestratorAddress sender orc (HexToAddress arg2) sig := by
  revert h
  unfold SetOrchestratorAddressRunE generateEthSig
  simp only [Outcome.events_bind, Outcome.result_bind, Outcome.events_emit,
    Outcome.result_emit, Outcome.events_try, Outcome.result_try, Outcome.events_tryWrap,
    Outcome.result_tryWrap, Outcome.events_check, Outcome.result_check, List.append_nil,
    List.nil_append]
  repeat (any_goals split) <;> (try simp_all)

/-- C5: `set-orchestrator-address` does not reject the malformed Ethereum address `0x1`. In
every environment the run on `0x1` is the run on the well-formed address
`0x0000000000000000000000000000000000000001`: every message built carries the zero-padded
address, and in the example environment the message is validated and broadcast and the
command returns nil. -/
theorem setOrchestratorAddress_pads_malformed_address (env : Env) (flags : FlagSet)
    (arg0 arg1 : String) :
    IsHexAddress "0x1" = false ∧
    IsHexAddress "0x0000000000000000000000000000000000000001" = true ∧
    SetOrchestratorAddressRunE env flags [arg0, arg1, "0x1"] =
      SetOrchestratorAddressRunE env flags
        [arg0, arg1, "0x0000000000000000000000000000000000000001"] ∧
    (∀ m, Event.built m ∈ (SetOrchestratorAddressRunE env flags [arg0, arg1, "0x1"]).events →
      ∃ sender orc sig, m = .NewMsgSetOrchestratorAddress sender orc
        [0, 0, 0, 0, 0, 0, 0, 0, 0, 0, 0, 0, 0, 0, 0, 0, 0, 0, 0, 1] sig) ∧
    CmdSetOrchestratorAddress.execute exampleEnv [(FlagOrchEthSig, "0xabcd")]
        ["alice", "orch", "0x1"] =
      ⟨[.flagSet FlagFrom "alice",
        .clientContext [(FlagOrchEthSig, "0xabcd"), (FlagEthPrivKey, ""), (FlagFrom, "alice")],
        .flagRead FlagOrchEthSig,
        .built (.NewMsgSetOrchestratorAddress (goBytes "alice") (goBytes "orch")
          [0, 0, 0, 0, 0, 0, 0, 0, 0, 0, 0, 0, 0, 0, 0, 0, 0, 0, 0, 1] [171, 205]),
        .validated (.NewMsgSetOrchestratorAddress (goBytes "alice") (goBytes "orch")
          [0, 0, 0, 0, 0, 0, 0, 0, 0, 0, 0, 0, 0, 0, 0, 0, 0, 0, 0, 1] [171, 205]),
        .broadcast (.NewMsgSetOrchestratorAddress (goBytes "alice") (goBytes "orch")
          [0, 0, 0, 0, 0, 0, 0, 0, 0, 0, 0, 0, 0, 0, 0, 0, 0, 0, 0, 1] [171, 205])],
       .ok ()⟩ := by
  refine ⟨by decide, by decide, setOrchestratorAddress_congr env flags arg0 arg1 _ _ (by decide),
    ?_, by decide⟩
  intro m hm
  obtain ⟨sender, orc, sig, rfl⟩ := built_setOrchestratorAddress env flags arg0 arg1 "0x1" m hm
  exact ⟨sender, orc, sig, by
    have : HexToAddress "0x1" = [0, 0, 0, 0, 0, 0, 0, 0, 0, 0, 0, 0, 0, 0, 0, 0, 0, 0, 0, 1] := by
      decide
    rw [this]⟩

theorem built_sendToEth (env : Env) (flags : FlagSet) (args : List String) (m : Msg)
    (h : Event.built m ∈ (SendToEthRunE env flags args).events) :
    ∃ sender dest amount fee, m = .NewMsgSendToEth sender dest amount fee := by
  revert h
  unfold SendToEthRunE
  split
  · simp only [Outcome.events_bind, Outcome.result_bind, Outcome.events_emit,
      Outcome.result_emit, Outcome.events_try, Outcome.result_try, Outcome.events_tryWrap,
      Outcome.result_tryWrap, Outcome.events_check, Outcome.result_check, List.append_nil,
      List.nil_append]
    repeat (any_goals split) <;> (try simp_all)
  · simp

theorem built_requestBatch (env : Env) (flags : FlagSet) (args : List String) (m : Msg)
    (h : Event.built m ∈ (RequestBatchRunE env flags args).events) :
    ∃ sender denom, m = .NewMsgRequestBatch sender denom := by
  revert h
  unfold RequestBatchRunE
  split
  · simp only [Outcome.events_bind, Outcome.result_bind, Outcome.events_emit,
      Outcome.result_emit, Outcome.events_try, Outcome.result_try, Outcome.events_tryWrap,
      Outcome.result_tryWrap, Outcome.events_check, Outcome.result_check, List.append_nil,
      List.nil_append]
    repeat (any_goals split) <;> (try simp_all)
  · simp

theorem built_setOrchestratorAddress_args (env : Env) (flags : FlagSet) (args : List String)
    (m : Msg) (h : Event.built m ∈ (SetOrchestratorAddressRunE env flags args).events) :
    ∃ sender orc eth sig, m = .NewMsgSetOrchestratorAddress sender orc eth sig := by
  match args, h with
  | [a0, a1, a2], h =>
    obtain ⟨s, o, sig, rfl⟩ := built_setOrchestratorAddress env flags a0 a1 a2 m h
    exact ⟨s, o, _, sig, rfl⟩
  | [], h => simp [SetOrchestratorAddressRunE] at h
  | [_], h => simp [SetOrchestratorAddressRunE] at h
  | [_, _], h => simp [SetOrchestratorAddressRunE] at h
  | _ :: _ :: _ :: _ :: _, h => simp [SetOrchestratorAddressRunE] at h

/-- C4, as stated, fails: no subcommand of `GetTxCmd` constructs a `MsgSubmitClaim` (nor a
`MsgConfirmBatch`), so the tree does not offer a constructing command for each of the five
message types. -/
theorem getTxCmd_not_all_five :
    ¬ ∀ t : MsgType, ∃ c ∈ (GetTxCmd "peggy").commands, c.Constructs t := by
  intro h
  obtain ⟨c, hc, env, fs, args, m, hm, ht⟩ := h .MsgSubmitClaim
  cases m <;> simp [Msg.msgType] at ht

/-- C4, amended: the tree returned by `GetTxCmd` has exactly the three subcommands
`send-to-eth`, `build-batch` and `set-orchestrator-address`; the first constructs only
send-to-external messages, the second only batch requests, the third only orchestrator
delegations, and each of them does construct one. No subcommand constructs a claim or a
batch confirmation. -/
theorem getTxCmd_three_commands (storeKey : String) :
    (GetTxCmd storeKey).commands = [CmdSendToEth, CmdRequestBatch, CmdSetOrchestratorAddress] ∧
    (∀ t, CmdSendToEth.Constructs t ↔ t = .MsgSendToExternal) ∧
    (∀ t, CmdRequestBatch.Constructs t ↔ t = .MsgRequestBatch) ∧
    (∀ t, CmdSetOrchestratorAddress.Constructs t ↔ t = .MsgDelegateOrchestrator) ∧
    (∀ c ∈ (GetTxCmd storeKey).commands,
      ¬ c.Constructs .MsgSubmitClaim ∧ ¬ c.Constructs .MsgConfirmBatch) := by
  have h1 : ∀ t, CmdSendToEth.Constructs t ↔ t = .MsgSendToExternal := by
    intro t
    constructor
    · rintro ⟨env, fs, args, m, hm, rfl⟩
      obtain ⟨_, _, _, _, rfl⟩ := built_sendToEth env fs args m hm
      rfl
    · rintro rfl
      exact ⟨exampleEnv, [(FlagFrom, "bob")], ["0xdead", "10uumee", "1uumee"],
        .NewMsgSendToEth (goBytes "bob") "0xdead" ⟨"uumee", 10⟩ ⟨"uumee", 1⟩, by decide, rfl⟩
  have h2 : ∀ t, CmdRequestBatch.Constructs t ↔ t = .MsgRequestBatch := by
    intro t
    constructor
    · rintro ⟨env, fs, args, m, hm, rfl⟩
      obtain ⟨_, _, rfl⟩ := built_requestBatch env fs args m hm
      rfl
    · rintro rfl
      exact ⟨exampleEnv, [(FlagFrom, "bob")], ["uumee"],
        .NewMsgRequestBatch (goBytes "bob") "uumee", by decide, rfl⟩
  have h3 : ∀ t, CmdSetOrchestratorAddress.Constructs t ↔ t = .MsgDelegateOrchestrator := by
    intro t
    constructor
    · rintro ⟨env, fs, args, m, hm, rfl⟩
      obtain ⟨_, _, _, _, rfl⟩ := built_setOrchestratorAddress_args env fs args m hm
      rfl
    · rintro rfl
      exact ⟨exampleEnv, [(FlagOrchEthSig, "0xabcd"), (FlagEthPrivKey, ""), (FlagFrom, "")],
        ["alice", "orch", "0x0000000000000000000000000000000000000001"],
        .NewMsgSetOrchestratorAddress (goBytes "alice") (goBytes "orch")
          [0, 0, 0, 0, 0, 0, 0, 0, 0, 0, 0, 0, 0, 0, 0, 0, 0, 0, 0, 1] [171, 205],
        by decide, rfl⟩
  refine ⟨rfl, h1, h2, h3, ?_⟩
  intro c hc
  simp only [GetTxCmd, List.mem_cons, List.mem_singleton, List.not_mem_nil, or_false] at hc
  rcases hc with rfl | rfl | rfl
  · exact ⟨fun h => MsgType.noConfusion ((h1 _).1 h), fun h => MsgType.noConfusion ((h1 _).1 h)⟩
  · exact ⟨fun h => MsgType.noConfusion ((h2 _).1 h), fun h => MsgType.noConfusion ((h2 _).1 h)⟩
  · exact ⟨fun h => MsgType.noConfusion ((h3 _).1 h), fun h => MsgType.noConfusion ((h3 _).1 h)⟩

end Peggy

namespace Simulation
open Peggy (Bytes GoError)

theorem getD_set_self (l : List Bytes) (j : Nat) (h : Bytes) (hj : j < l.length) :
    (l.set j h).getD j [] = h := by
  simp [List.getD_eq_getElem?_getD, List.getElem?_set, hj]

theorem getD_set_ne (l : List Bytes) (j k : Nat) (h : Bytes) (hjk : j ≠ k) :
    (l.set j h).getD k [] = l.getD k [] := by
  simp [List.getD_eq_getElem?_getD, List.getElem?_set, hjk]

theorem attempt_spec (rand : Nat → Nat) (sim : Nat → Nat → Nat → Except GoError Bytes)
    (i j : Nat) (st : DeterminismState) (hi : i < numSeeds) (hj : j < numTimesToRunPerSeed)
    (hlen : st.appHashList.length = numTimesToRunPerSeed) (hnf : st.failed = false)
    (hass : ∀ a ∈ st.assertions, GoodAssertion rand sim a)
    (hprev : ∀ k < j, sim (rand i) i k = .ok (st.appHashList.getD k []) ∧
      AgreesWithFirst rand sim i k) :
    (attempt sim (rand i) i j st).appHashList.length = numTimesToRunPerSeed ∧
    (∀ a ∈ (attempt sim (rand i) i j st).assertions, GoodAssertion rand sim a) ∧
    ((attempt sim (rand i) i j st).failed = false →
      ∀ k < j + 1, sim (rand i) i k = .ok ((attempt sim (rand i) i j st).appHashList.getD k []) ∧
        AgreesWithFirst rand sim i k) ∧
    ((attempt sim (rand i) i j st).failed = true → ¬ AgreesWithFirst rand sim i j) := by
  unfold attempt
  cases hs : sim (rand i) i j with
  | error e =>
    refine ⟨hlen, hass, fun h => by simp at h, fun _ => ?_⟩
    rintro ⟨h, -, h2⟩
    rw [hs] at h2
    cases h2
  | ok h =>
    have hjl : j < st.appHashList.length := by rw [hlen]; exact hj
    by_cases hj0 : j = 0
    · subst hj0
      simp only [ne_eq, not_true_eq_false, if_false]
      refine ⟨by simp [hlen], hass, fun _ k hk => ?_, fun hf => by simp [hnf] at hf⟩
      have hk0 : k = 0 := by omega
      subst hk0
      rw [getD_set_self _ _ _ hjl]
      exact ⟨hs, h, hs, hs⟩
    · simp only [ne_eq, hj0, not_false_eq_true, if_true]
      have h0 := hprev 0 (Nat.pos_of_ne_zero hj0)
      have e0 : (st.appHashList.set j h).getD 0 [] = st.appHashList.getD 0 [] :=
        getD_set_ne _ _ _ _ hj0
      have ej : (st.appHashList.set j h).getD j [] = h := getD_set_self _ _ _ hjl
      rw [e0, ej]
      refine ⟨by simp [hlen], ?_, ?_, ?_⟩
      · intro a ha
        rcases List.mem_append.1 ha with ha | ha
        · exact hass a ha
        · rw [List.mem_singleton] at ha
          subst ha
          exact ⟨hi, Nat.pos_of_ne_zero hj0, hj, h0.1, hs⟩
      · intro hf k hk
        have heq : st.appHashList.getD 0 [] = h := by simpa using hf
        by_cases hkj : k = j
        · subst hkj
          rw [ej]
          refine ⟨hs, h, ?_, hs⟩
          rw [← heq]
          exact h0.1
        · rw [getD_set_ne _ _ _ _ (Ne.symm hkj)]
          exact hprev k (by omega)
      · intro hf
        have hne : st.appHashList.getD 0 [] ≠ h := by simpa using hf
        rintro ⟨h', h1, h2⟩
        rw [h0.1] at h1
        rw [hs] at h2
        cases h1
        cases h2
        exact hne rfl

theorem attemptsLoop_spec (rand : Nat → Nat) (sim : Nat → Nat → Nat → Except GoError Bytes)
    (i : Nat) (hi : i < numSeeds) :
    ∀ (n j : Nat) (st : DeterminismState), n + j = numTimesToRunPerSeed →
      st.appHashList.length = numTimesToRunPerSeed →
      (∀ a ∈ st.assertions, GoodAssertion rand sim a) →
      (st.failed = false → ∀ k < j, sim (rand i) i k = .ok (st.appHashList.getD k []) ∧
        AgreesWithFirst rand sim i k) →
      (st.failed = true → ∃ k < numTimesToRunPerSeed, ¬ AgreesWithFirst rand sim i k) →
      (attemptsLoop sim (rand i) i n j st).appHashList.length = numTimesToRunPerSeed ∧
      (∀ a ∈ (attemptsLoop sim (rand i) i n j st).assertions, GoodAssertion rand sim a) ∧
      ((attemptsLoop sim (rand i) i n j st).failed = false →
        ∀ k < numTimesToRunPerSeed, AgreesWithFirst rand sim i k) ∧
      ((attemptsLoop sim (rand i) i n j st).failed = true →
        ∃ k < numTimesToRunPerSeed, ¬ AgreesWithFirst rand sim i k) := by
  intro n
  induction n with
  | zero =>
    intro j st hn hlen hass hprev hfail
    have hj : j = numTimesToRunPerSeed := by omega
    subst hj
    exact ⟨hlen, hass, fun hf k hk => (hprev hf k hk).2, hfail⟩
  | succ n ih =>
    intro j st hn hlen hass hprev hfail
    unfold attemptsLoop
    by_cases hf : st.failed = true
    · rw [if_pos hf]
      exact ⟨hlen, hass, fun h => Bool.noConfusion (hf.symm.trans h), hfail⟩
    · rw [if_neg hf]
      have hnf : st.failed = false := by simpa using hf
      have hj : j < numTimesToRunPerSeed := by omega
      obtain ⟨h1, h2, h3, h4⟩ := attempt_spec rand sim i j st hi hj hlen hnf hass (hprev hnf)
      exact ih (j + 1) _ (by omega) h1 h2 h3 (fun h => ⟨j, hj, h4 h⟩)

theorem seedsLoop_spec (rand : Nat → Nat) (sim : Nat → Nat → Nat → Except GoError Bytes) :
    ∀ (n i : Nat) (st : DeterminismState), n + i = numSeeds →
      st.appHashList.length = numTimesToRunPerSeed →
      (∀ a ∈ st.assertions, GoodAssertion rand sim a) →
      (st.failed = false → ∀ i' < i, ∀ k < numTimesToRunPerSeed,
        AgreesWithFirst rand sim i' k) →
      (st.failed = true → ∃ i' < numSeeds, ∃ k < numTimesToRunPerSeed,
        ¬ AgreesWithFirst rand sim i' k) →
      (∀ a ∈ (seedsLoop rand sim n i st).assertions, GoodAssertion rand sim a) ∧
      ((seedsLoop rand sim n i st).failed = false →
        ∀ i' < numSeeds, ∀ k < numTimesToRunPerSeed, AgreesWithFirst rand sim i' k) ∧
      ((seedsLoop rand sim n i st).failed = true →
        ∃ i' < numSeeds, ∃ k < numTimesToRunPerSeed, ¬ AgreesWithFirst rand sim i' k) := by
  intro n
  induction n with
  | zero =>
    intro i st hn hlen hass hprev hfail
    have hi : i = numSeeds := by omega
    subst hi
    exact ⟨hass, hprev, hfail⟩
  | succ n ih =>
    intro i st hn hlen hass hprev hfail
    unfold seedsLoop
    by_cases hf : st.failed = true
    · rw [if_pos hf]
      exact ⟨hass, fun h => Bool.noConfusion (hf.symm.trans h), hfail⟩
    · rw [if_neg hf]
      have hnf : st.failed = false := by simpa using hf
      have hi : i < numSeeds := by omega
      obtain ⟨h1, h2, h3, h4⟩ := attemptsLoop_spec rand sim i hi numTimesToRunPerSeed 0 st
        rfl hlen hass (fun _ k hk => absurd hk (Nat.not_lt_zero k))
        (fun h => Bool.noConfusion (hnf.symm.trans h))
      refine ih (i + 1) _ (by omega) h1 h2 ?_ ?_
      · intro h i' hi' k hk
        by_cases he : i' = i
        · subst he
          exact h3 h k hk
        · exact hprev hnf i' (by omega) k hk
      · intro h
        obtain ⟨k, hk, hna⟩ := h4 h
        exact ⟨i, hi, k, hk, hna⟩

/-- What `TestAppStateDeterminism` does with any simulation: every executed equality
assertion compares run `j > 0` with run 0 of the same seed, and the enabled test passes
exactly when every run of each seed ends without error on the hash of run 0. -/
theorem determinism_test_spec (FlagEnabledValue : Bool) (rand : Nat → Nat)
    (sim : Nat → Nat → Nat → Except GoError Bytes) :
    (∀ a ∈ (TestAppStateDeterminism FlagEnabledValue rand sim).2,
      a.seedIndex < numSeeds ∧ 0 < a.attempt ∧ a.attempt < numTimesToRunPerSeed ∧
      sim (rand a.seedIndex) a.seedIndex 0 = .ok a.expected ∧
      sim (rand a.seedIndex) a.seedIndex a.attempt = .ok a.actual) ∧
    (FlagEnabledValue = true →
      ((TestAppStateDeterminism FlagEnabledValue rand sim).1 = .passed ↔
        ∀ i < numSeeds, ∀ j < numTimesToRunPerSeed,
          ∃ h, sim (rand i) i 0 = .ok h ∧ sim (rand i) i j = .ok h)) ∧
    ((TestAppStateDeterminism FlagEnabledValue rand sim).1 = .passed →
      ∀ i < numSeeds, ∀ j < numTimesToRunPerSeed, ∀ k < numTimesToRunPerSeed,
        sim (rand i) i j = sim (rand i) i k) := by
  obtain ⟨h1, h2, h3⟩ := seedsLoop_spec rand sim numSeeds 0
    ⟨List.replicate numTimesToRunPerSeed [], [], false⟩ rfl (by simp)
    (fun a ha => by cases ha) (fun _ i' hi' => absurd hi' (Nat.not_lt_zero i'))
    (fun h => by cases h)
  have key : FlagEnabledValue = true →
      ((TestAppStateDeterminism FlagEnabledValue rand sim).1 = .passed ↔
        ∀ i < numSeeds, ∀ j < numTimesToRunPerSeed, AgreesWithFirst rand sim i j) := by
    intro he
    subst he
    simp only [TestAppStateDeterminism, Bool.not_true, Bool.false_eq_true, if_false]
    constructor
    · intro hp
      split at hp
      · cases hp
      · rename_i hf
        exact h2 (by simpa using hf)
    · intro hall
      split
      · rename_i hf
        obtain ⟨i, hi, k, hk, hna⟩ := h3 hf
        exact absurd (hall i hi k hk) hna
      · rfl
  refine ⟨?_, key, ?_⟩
  · cases FlagEnabledValue
    · intro a ha
      simp [TestAppStateDeterminism] at ha
    · intro a ha
      simp only [TestAppStateDeterminism, Bool.not_true, Bool.false_eq_true, if_false] at ha
      exact h1 a ha
  · intro hp i hi j hj k hk
    cases FlagEnabledValue
    · simp [TestAppStateDeterminism] at hp
    · obtain ⟨a, ha0, haj⟩ := (key rfl).1 hp i hi j hj
      obtain ⟨b, hb0, hbk⟩ := (key rfl).1 hp i hi k hk
      rw [ha0] at hb0
      cases hb0
      rw [haj, hbk]

/-- C7: on the application modelled from the design document, for every seed any two
simulation runs from that seed end, without error, with the same application hash, and the
enabled `TestAppStateDeterminism` passes on it with every assertion comparing equal hashes.
In `TestAppStateDeterminism`, whatever the simulation does, every executed equality
assertion compares the hash of a run `j > 0` with the hash of run 0 of the same seed; the
enabled test passes exactly when, for each of its seeds, every run ends without error on
the hash of run 0 of that seed, and then any two runs of a seed end with the same hash. -/
theorem determinism_assertions_same_seed (FlagEnabledValue : Bool) (rand : Nat → Nat)
    (sim : Nat → Nat → Nat → Except GoError Bytes) (app : Application) :
    (∀ seed i j i' j' : Nat, ∃ h,
      SimulateFromSeed app seed i j = .ok h ∧ SimulateFromSeed app seed i' j' = .ok h) ∧
    (TestAppStateDeterminism true rand (SimulateFromSeed app)).1 = .passed ∧
    (∀ a ∈ (TestAppStateDeterminism true rand (SimulateFromSeed app)).2,
      a.expected = a.actual) ∧
    (∀ a ∈ (TestAppStateDeterminism FlagEnabledValue rand sim).2,
      a.seedIndex < numSeeds ∧ 0 < a.attempt ∧ a.attempt < numTimesToRunPerSeed ∧
      sim (rand a.seedIndex) a.seedIndex 0 = .ok a.expected ∧
      sim (rand a.seedIndex) a.seedIndex a.attempt = .ok a.actual) ∧
    (FlagEnabledValue = true →
      ((TestAppStateDeterminism FlagEnabledValue rand sim).1 = .passed ↔
        ∀ i < numSeeds, ∀ j < numTimesToRunPerSeed,
          ∃ h, sim (rand i) i 0 = .ok h ∧ sim (rand i) i j = .ok h)) ∧
    ((TestAppStateDeterminism FlagEnabledValue rand sim).1 = .passed →
      ∀ i < numSeeds, ∀ j < numTimesToRunPerSeed, ∀ k < numTimesToRunPerSeed,
        sim (rand i) i j = sim (rand i) i k) := by
  obtain ⟨h1, h2, h3⟩ := determinism_test_spec FlagEnabledValue rand sim
  obtain ⟨a1, a2, _⟩ := determinism_test_spec true rand (SimulateFromSeed app)
  refine ⟨fun seed _ _ _ _ => ⟨app.appHash (simulate app NewMemDB seed), rfl, rfl⟩,
    (a2 rfl).2 (fun i _ _ _ => ⟨app.appHash (simulate app NewMemDB (rand i)), rfl, rfl⟩),
    fun a ha => ?_, h1, h2, h3⟩
  obtain ⟨_, _, _, e0, ej⟩ := a1 a ha
  exact Except.ok.inj (e0.symm.trans ej)

/-- C7, instance: two runs of the example application from seed 4 end with the same hash,
and the enabled test passes on the example application. -/
theorem determinism_assertions_same_seed_witness :
    SimulateFromSeed exampleApplication 4 0 0 = .ok [6, 14, 5, 8, 8, 16] ∧
    SimulateFromSeed exampleApplication 4 2 3 = .ok [6, 14, 5, 8, 8, 16] ∧
    (TestAppStateDeterminism true (fun i => 7 * i + 1)
      (SimulateFromSeed exampleApplication)).1 = .passed :=
  ⟨by decide, by decide,
   (determinism_assertions_same_seed true (fun i => 7 * i + 1) (fun seed _ _ => .ok [seed])
     exampleApplication).2.1⟩


theorem bytesLt_irrefl (a : Bytes) : bytesLt a a = false := by
  induction a with
  | nil => rfl
  | cons x xs ih => simp [bytesLt, ih]

theorem bytesLt_trans : ∀ (a b c : Bytes), bytesLt a b = true → bytesLt b c = true →
    bytesLt a c = true
  | [], [], _, h, _ => by simp [bytesLt] at h
  | [], _ :: _, [], _, h => by simp [bytesLt] at h
  | [], _ :: _, _ :: _, _, _ => by simp [bytesLt]
  | _ :: _, [], _, h, _ => by simp [bytesLt] at h
  | _ :: _, _ :: _, [], _, h => by simp [bytesLt] at h
  | x :: xs, y :: ys, z :: zs, h1, h2 => by
    simp only [bytesLt, Bool.or_eq_true, Bool.and_eq_true, decide_eq_true_eq] at h1 h2 ⊢
    rcases h1 with h1 | ⟨e1, h1⟩
    · rcases h2 with h2 | ⟨e2, _⟩
      · exact Or.inl (by omega)
      · exact Or.inl (by omega)
    · rcases h2 with h2 | ⟨e2, h2⟩
      · exact Or.inl (by omega)
      · exact Or.inr ⟨by omega, bytesLt_trans xs ys zs h1 h2⟩

theorem bytesLt_total : ∀ (a b : Bytes), bytesLt a b = false → a ≠ b → bytesLt b a = true
  | [], [], _, h => absurd rfl h
  | [], _ :: _, h, _ => by simp [bytesLt] at h
  | _ :: _, [], _, _ => by simp [bytesLt]
  | x :: xs, y :: ys, h, hne => by
    simp only [bytesLt, Bool.or_eq_false_iff, Bool.and_eq_false_imp, decide_eq_false_iff_not,
      decide_eq_true_eq] at h
    simp only [bytesLt, Bool.or_eq_true, Bool.and_eq_true, decide_eq_true_eq]
    by_cases e : x = y
    · subst e
      exact Or.inr ⟨rfl, bytesLt_total xs ys (h.2 rfl) (fun e => hne (by rw [e]))⟩
    · exact Or.inl (by omega)

theorem bytesLt_asymm (a b : Bytes) (h : bytesLt a b = true) : bytesLt b a = false := by
  cases hb : bytesLt b a with
  | false => rfl
  | true =>
    have := bytesLt_trans a b a h hb
    rw [bytesLt_irrefl] at this
    cases this

theorem bytesLt_ne (a b : Bytes) (h : bytesLt a b = true) : a ≠ b := by
  intro e
  subst e
  rw [bytesLt_irrefl] at h
  cases h

/-- Two pairs of a store in key order that have the same key are the same pair. -/
theorem keySorted_unique {s : KVStore} (hs : KeySorted s) :
    ∀ x ∈ s, ∀ y ∈ s, x.1 = y.1 → x = y := by
  induction s with
  | nil => intro x hx; cases hx
  | cons a rest ih =>
    have h := List.pairwise_cons.1 hs
    intro x hx y hy e
    rcases List.mem_cons.1 hx with ex | hx2
    · rcases List.mem_cons.1 hy with ey | hy2
      · rw [ex, ey]
      · exact absurd e (ex ▸ bytesLt_ne _ _ (h.1 y hy2))
    · rcases List.mem_cons.1 hy with ey | hy2
      · exact absurd e.symm (ey ▸ bytesLt_ne _ _ (h.1 x hx2))
      · exact ih h.2 x hx2 y hy2 e

/-- Two stores in key order with the same pairs are equal. -/
theorem keySorted_ext {s t : KVStore} (hs : KeySorted s) (ht : KeySorted t)
    (h : ∀ x, x ∈ s ↔ x ∈ t) : s = t := by
  induction s generalizing t with
  | nil =>
    cases t with
    | nil => rfl
    | cons b _ => exact absurd ((h b).2 (List.mem_cons_self _ _)) (List.not_mem_nil _)
  | cons a s ih =>
    cases t with
    | nil => exact absurd ((h a).1 (List.mem_cons_self _ _)) (List.not_mem_nil _)
    | cons b t =>
      have hs2 := List.pairwise_cons.1 hs
      have ht2 := List.pairwise_cons.1 ht
      have hab : a = b := by
        rcases List.mem_cons.1 ((h a).1 (List.mem_cons_self _ _)) with e | ha
        · exact e
        · rcases List.mem_cons.1 ((h b).2 (List.mem_cons_self _ _)) with e | hb
          · exact e.symm
          · have h1 := ht2.1 a ha
            have h2 := hs2.1 b hb
            rw [bytesLt_asymm _ _ h1] at h2
            cases h2
      subst hab
      congr 1
      apply ih hs2.2 ht2.2
      intro x
      constructor
      · intro hx
        rcases List.mem_cons.1 ((h x).1 (List.mem_cons_of_mem _ hx)) with e | hx2
        · subst e
          have := hs2.1 x hx
          rw [bytesLt_irrefl] at this
          cases this
        · exact hx2
      · intro hx
        rcases List.mem_cons.1 ((h x).2 (List.mem_cons_of_mem _ hx)) with e | hx2
        · subst e
          have := ht2.1 x hx
          rw [bytesLt_irrefl] at this
          cases this
        · exact hx2

theorem mem_storeSet (s : KVStore) (key value : Bytes) (hs : KeySorted s) (x : KVPair) :
    x ∈ storeSet s key value ↔ x = (key, value) ∨ (x ∈ s ∧ x.1 ≠ key) := by
  induction s with
  | nil => simp [storeSet]
  | cons a rest ih =>
    obtain ⟨k0, v0⟩ := a
    have h := List.pairwise_cons.1 hs
    simp only [storeSet]
    split
    · rename_i hlt
      simp only [List.mem_cons]
      constructor
      · rintro (e | e | hx)
        · exact Or.inl e
        · subst e
          exact Or.inr ⟨Or.inl rfl, fun e => bytesLt_ne _ _ hlt e.symm⟩
        · refine Or.inr ⟨Or.inr hx, fun e => ?_⟩
          have h1 := bytesLt_trans _ _ _ hlt (h.1 x hx)
          rw [e, bytesLt_irrefl] at h1
          cases h1
      · rintro (e | ⟨e | hx, _⟩)
        · exact Or.inl e
        · exact Or.inr (Or.inl e)
        · exact Or.inr (Or.inr hx)
    · split
      · rename_i _ heq
        subst heq
        simp only [List.mem_cons]
        constructor
        · rintro (e | hx)
          · exact Or.inl e
          · exact Or.inr ⟨Or.inr hx, fun e => bytesLt_ne _ _ (h.1 x hx) e.symm⟩
        · rintro (e | ⟨e | hx, hne⟩)
          · exact Or.inl e
          · subst e
            exact absurd rfl hne
          · exact Or.inr hx
      · rename_i _ hne
        simp only [List.mem_cons, ih h.2]
        constructor
        · rintro (e | e | ⟨hx, hk⟩)
          · subst e
            exact Or.inr ⟨Or.inl rfl, fun e => hne e.symm⟩
          · exact Or.inl e
          · exact Or.inr ⟨Or.inr hx, hk⟩
        · rintro (e | ⟨e | hx, hk⟩)
          · exact Or.inr (Or.inl e)
          · exact Or.inl e
          · exact Or.inr (Or.inr ⟨hx, hk⟩)

theorem keySorted_storeSet (s : KVStore) (key value : Bytes) (hs : KeySorted s) :
    KeySorted (storeSet s key value) := by
  induction s with
  | nil => simp [storeSet, KeySorted]
  | cons a rest ih =>
    obtain ⟨k0, v0⟩ := a
    have h := List.pairwise_cons.1 hs
    simp only [storeSet]
    split
    · rename_i hlt
      refine List.pairwise_cons.2 ⟨fun y hy => ?_, hs⟩
      rcases List.mem_cons.1 hy with rfl | hy
      · exact hlt
      · exact bytesLt_trans _ _ _ hlt (h.1 y hy)
    · split
      · rename_i _ heq
        subst heq
        exact List.pairwise_cons.2 ⟨fun y hy => h.1 y hy, h.2⟩
      · rename_i hnlt hne
        refine List.pairwise_cons.2 ⟨fun y hy => ?_, ih h.2⟩
        rcases (mem_storeSet rest key value h.2 y).1 hy with rfl | ⟨hy, _⟩
        · exact bytesLt_total _ _ (by simpa using hnlt) hne
        · exact h.1 y hy

theorem keySorted_storeDelete (s : KVStore) (key : Bytes) (hs : KeySorted s) :
    KeySorted (storeDelete s key) :=
  List.Pairwise.filter _ hs

/-- The invariant of the committed storage: every store is in key order and holds keys of
its module's collections only. -/
theorem applyWrite_inv (collections : StoreKey → List Bytes) (st : Stores) (w : Write)
    (hw : ∃ p ∈ collections w.store, p.isPrefixOf w.key = true)
    (h : ∀ k, KeySorted (st k) ∧ Covered (collections k) (st k)) :
    ∀ k, KeySorted (applyWrite st w k) ∧ Covered (collections k) (applyWrite st w k) := by
  intro k
  cases w with
  | set store key value =>
    simp only [applyWrite]
    split
    · rename_i e
      subst e
      refine ⟨keySorted_storeSet _ _ _ (h k).1, fun kv hkv => ?_⟩
      rcases (mem_storeSet _ _ _ (h k).1 kv).1 hkv with rfl | ⟨hkv, _⟩
      · exact hw
      · exact (h k).2 kv hkv
    · exact h k
  | delete store key =>
    simp only [applyWrite]
    split
    · rename_i e
      subst e
      exact ⟨keySorted_storeDelete _ _ (h k).1,
        fun kv hkv => (h k).2 kv (List.mem_of_mem_filter hkv)⟩
    · exact h k

theorem foldl_applyWrite_inv (collections : StoreKey → List Bytes) (ws : List Write)
    (st : Stores) (hws : ∀ w ∈ ws, ∃ p ∈ collections w.store, p.isPrefixOf w.key = true)
    (h : ∀ k, KeySorted (st k) ∧ Covered (collections k) (st k)) :
    ∀ k, KeySorted (ws.foldl applyWrite st k) ∧
      Covered (collections k) (ws.foldl applyWrite st k) := by
  induction ws generalizing st with
  | nil => exact h
  | cons w rest ih =>
    simp only [List.foldl_cons]
    exact ih _ (fun w' hw' => hws w' (List.mem_cons_of_mem _ hw'))
      (applyWrite_inv collections st w (hws w (List.mem_cons_self _ _)) h)

theorem deliverTx_inv (app : Application) (st : Stores) (tx : Bytes)
    (h : ∀ k, KeySorted (st k) ∧ Covered (app.collections k) (st k)) :
    ∀ k, KeySorted (deliverTx app st tx k) ∧
      Covered (app.collections k) (deliverTx app st tx k) :=
  foldl_applyWrite_inv app.collections _ st (fun w hw => app.layout st tx w hw) h

theorem foldl_deliverTx_inv (app : Application) (txs : List Bytes) (st : Stores)
    (h : ∀ k, KeySorted (st k) ∧ Covered (app.collections k) (st k)) :
    ∀ k, KeySorted (txs.foldl (deliverTx app) st k) ∧
      Covered (app.collections k) (txs.foldl (deliverTx app) st k) := by
  induction txs generalizing st with
  | nil => exact h
  | cons tx rest ih =>
    simp only [List.foldl_cons]
    exact ih _ (deliverTx_inv app st tx h)

theorem newMemDB_inv (collections : StoreKey → List Bytes) :
    ∀ k, KeySorted (NewMemDB k) ∧ Covered (collections k) (NewMemDB k) :=
  fun _ => ⟨List.Pairwise.nil, fun _ h => absurd h (List.not_mem_nil _)⟩

/-- Writing pairs of a store in key order one by one keeps the key order and adds exactly
those pairs. -/
theorem foldl_storeSet_spec (s : KVStore) (hs : KeySorted s) (l : List KVPair)
    (t : KVStore) (hl : ∀ x ∈ l, x ∈ s) (ht : KeySorted t) (hts : ∀ x ∈ t, x ∈ s) :
    KeySorted (l.foldl (fun s kv => storeSet s kv.1 kv.2) t) ∧
    ∀ x, x ∈ l.foldl (fun s kv => storeSet s kv.1 kv.2) t ↔ x ∈ t ∨ x ∈ l := by
  induction l generalizing t with
  | nil => exact ⟨ht, fun x => by simp⟩
  | cons kv rest ih =>
    simp only [List.foldl_cons]
    have hmem : ∀ x, x ∈ storeSet t kv.1 kv.2 ↔ x = kv ∨ x ∈ t := by
      intro x
      rw [mem_storeSet t kv.1 kv.2 ht x]
      constructor
      · rintro (e | ⟨hx, _⟩)
        · exact Or.inl e
        · exact Or.inr hx
      · rintro (e | hx)
        · exact Or.inl e
        · by_cases hk : x.1 = kv.1
          · exact Or.inl (keySorted_unique hs x (hts x hx) kv (hl kv (List.mem_cons_self _ _)) hk)
          · exact Or.inr ⟨hx, hk⟩
    obtain ⟨h1, h2⟩ := ih (storeSet t kv.1 kv.2)
      (fun x hx => hl x (List.mem_cons_of_mem _ hx))
      (keySorted_storeSet t kv.1 kv.2 ht)
      (fun x hx => by
        rcases (hmem x).1 hx with e | hx
        · exact e ▸ hl kv (List.mem_cons_self _ _)
        · exact hts x hx)
    refine ⟨h1, fun x => ?_⟩
    rw [h2 x, hmem x, List.mem_cons]
    constructor
    · rintro ((e | hx) | hx)
      · exact Or.inr (Or.inl e)
      · exact Or.inl hx
      · exact Or.inr (Or.inr hx)
    · rintro (hx | e | hx)
      · exact Or.inl (Or.inr hx)
      · exact Or.inl (Or.inl e)
      · exact Or.inr hx

/-- The round trip of one module: a store in key order whose keys lie in the module's
collections comes back from export and import as it was. -/
theorem initGenesis_exportGenesis (collections : List Bytes) (s : KVStore)
    (hs : KeySorted s) (hc : Covered collections s) :
    InitGenesis (ExportGenesis collections s) = s := by
  have hl : ∀ x ∈ (ExportGenesis collections s).flatten, x ∈ s := by
    intro x hx
    obtain ⟨l, hl, hxl⟩ := List.mem_flatten.1 hx
    obtain ⟨p, _, rfl⟩ := List.mem_map.1 hl
    exact List.mem_of_mem_filter hxl
  obtain ⟨h1, h2⟩ := foldl_storeSet_spec s hs _ [] hl List.Pairwise.nil
    (fun _ h => absurd h (List.not_mem_nil _))
  refine keySorted_ext h1 hs (fun x => ?_)
  show x ∈ List.foldl (fun s kv => storeSet s kv.1 kv.2) []
    (ExportGenesis collections s).flatten ↔ x ∈ s
  rw [h2 x]
  constructor
  · rintro (h | h)
    · cases h
    · exact hl x h
  · intro hx
    obtain ⟨p, hp, hpx⟩ := hc x hx
    exact Or.inr (List.mem_flatten.2 ⟨rangeOf s p, List.mem_map.2 ⟨p, hp, rfl⟩,
      List.mem_filter.2 ⟨hx, hpx⟩⟩)

theorem initChainer_exportAppState (app : Application) (st : Stores)
    (h : ∀ k, KeySorted (st k) ∧ Covered (app.collections k) (st k)) (k : StoreKey) :
    InitChainer (ExportAppState app st) k = st k :=
  initGenesis_exportGenesis (app.collections k) (st k) (h k).1 (h k).2

theorem diffLoop_self (prefixesToSkip : List Bytes) (a : KVStore) :
    ∀ (fuel : Nat) (kvAs kvBs : List KVPair), a.length < fuel →
      diffLoop prefixesToSkip fuel a a kvAs kvBs = .ok (kvAs, kvBs) := by
  induction a with
  | nil =>
    intro fuel kvAs kvBs hf
    cases fuel with
    | zero => cases hf
    | succ f => simp [diffLoop]
  | cons x rest ih =>
    intro fuel kvAs kvBs hf
    cases fuel with
    | zero => cases hf
    | succ f =>
      have hr := ih f kvAs kvBs (by simpa using hf)
      simp only [diffLoop, List.isEmpty_cons, Bool.false_and, Bool.false_eq_true, if_false,
        List.headD_cons, List.tail_cons, Bool.not_not, ne_eq, not_true_eq_false, or_self,
        if_true]
      split
      · exact hr
      · exact hr

theorem diffKVStores_self (a : KVStore) (prefixesToSkip : List Bytes) :
    DiffKVStores a a prefixesToSkip = .ok ([], []) :=
  diffLoop_self prefixesToSkip a _ [] [] (by omega)

theorem compareStores_self (sdk : SDK) (storesA storesB : Stores)
    (l : List StoreKeysPrefixes) (h : ∀ skp ∈ l, storesB skp.B = storesA skp.A) :
    compareStores sdk storesA storesB l = .returned := by
  induction l with
  | nil => rfl
  | cons skp rest ih =>
    simp only [compareStores, h skp (List.mem_cons_self _ _), diffKVStores_self]
    simpa using ih (fun s hs => h s (List.mem_cons_of_mem _ hs))

theorem storeKeysPrefixes_same_store (sdk : SDK) :
    ∀ skp ∈ storeKeysPrefixes sdk, skp.A = skp.B := by
  intro skp h
  simp only [storeKeysPrefixes, List.mem_cons, List.mem_singleton, List.not_mem_nil,
    or_false] at h
  rcases h with h | h | h | h | h | h | h | h | h | h | h | h | h | h | h <;> rw [h]

theorem importExport_test_of_equal (sdk : SDK) (stopEarly : Bool) (st : Stores)
    (newDBClose removeNewDir removeDir : Option GoError) :
    TestAppImportExport sdk
        { stopEarly := stopEarly, initChainerPanic := none, storesA := st, storesB := st,
          newDBClose := newDBClose, removeNewDir := removeNewDir, removeDir := removeDir } =
      .passed ↔ (newDBClose = none ∧ removeNewDir = none ∧ removeDir = none) := by
  have hb : importExportBody sdk
      { stopEarly := stopEarly, initChainerPanic := none, storesA := st, storesB := st,
        newDBClose := newDBClose, removeNewDir := removeNewDir, removeDir := removeDir } =
      .returned := by
    simp only [importExportBody]
    split
    · rfl
    · exact compareStores_self sdk st st _
        (fun skp h => by rw [storeKeysPrefixes_same_store sdk skp h])
  simp only [TestAppImportExport, hb, cleanupFails]
  cases newDBClose <;> cases removeNewDir <;> cases removeDir <;> simp

/-- C6: on the application modelled from the design document, every state reached from a
fresh database by executing transactions, and so the state a simulation run reaches from
any seed, comes back from a full export and an import into a fresh instance with the same
key/value contents in every module store, the store of the bridge module included;
`sdk.DiffKVStores` then reports no differing pair for any store `TestAppImportExport`
compares, and the test, stopped early or not, passes exactly when its deferred cleanup
checks meet no error. -/
theorem importExport_round_trip (app : Application) (sdk : SDK) :
    (∀ (txs : List Bytes) (k : StoreKey),
      InitChainer (ExportAppState app (txs.foldl (deliverTx app) NewMemDB)) k =
        txs.foldl (deliverTx app) NewMemDB k) ∧
    (∀ (seed : Nat),
      (∀ k : StoreKey, InitChainer (ExportAppState app (simulate app NewMemDB seed)) k =
        simulate app NewMemDB seed k) ∧
      InitChainer (ExportAppState app (simulate app NewMemDB seed)) bridgeStore =
        simulate app NewMemDB seed bridgeStore ∧
      (∀ skp ∈ storeKeysPrefixes sdk,
        DiffKVStores (simulate app NewMemDB seed skp.A)
          (InitChainer (ExportAppState app (simulate app NewMemDB seed)) skp.B)
          skp.Prefixes = .ok ([], [])) ∧
      (∀ (stopEarly : Bool) (newDBClose removeNewDir removeDir : Option GoError),
        TestAppImportExport sdk
            { stopEarly := stopEarly, initChainerPanic := none,
              storesA := simulate app NewMemDB seed,
              storesB := InitChainer (ExportAppState app (simulate app NewMemDB seed)),
              newDBClose := newDBClose, removeNewDir := removeNewDir,
              removeDir := removeDir } = .passed ↔
          (newDBClose = none ∧ removeNewDir = none ∧ removeDir = none))) := by
  have hrt : ∀ (txs : List Bytes) (k : StoreKey),
      InitChainer (ExportAppState app (txs.foldl (deliverTx app) NewMemDB)) k =
        txs.foldl (deliverTx app) NewMemDB k :=
    fun txs k => initChainer_exportAppState app _
      (foldl_deliverTx_inv app txs NewMemDB (newMemDB_inv app.collections)) k
  refine ⟨hrt, fun seed => ?_⟩
  have hs : InitChainer (ExportAppState app (simulate app NewMemDB seed)) =
      simulate app NewMemDB seed := funext (hrt (app.operations seed))
  refine ⟨hrt (app.operations seed), hrt (app.operations seed) bridgeStore, ?_, ?_⟩
  · intro skp h
    rw [hs, storeKeysPrefixes_same_store sdk skp h]
    exact diffKVStores_self _ _
  · intro stopEarly newDBClose removeNewDir removeDir
    rw [hs]
    exact importExport_test_of_equal sdk stopEarly _ newDBClose removeNewDir removeDir

/-- C6, instance: a simulation run of the example application leaves pairs in both
collections of the bridge store, the import of the exported state holds the same pairs, and
the test passes. -/
theorem importExport_round_trip_witness :
    simulate exampleApplication NewMemDB 4 bridgeStore =
      [([1, 4], [1]), ([1, 9], [4]), ([2, 1], [2])] ∧
    InitChainer (ExportAppState exampleApplication (simulate exampleApplication NewMemDB 4))
      bridgeStore = [([1, 4], [1]), ([1, 9], [4]), ([2, 1], [2])] ∧
    TestAppImportExport exampleSDK
        { stopEarly := false, initChainerPanic := none,
          storesA := simulate exampleApplication NewMemDB 4,
          storesB := InitChainer
            (ExportAppState exampleApplication (simulate exampleApplication NewMemDB 4)),
          newDBClose := none, removeNewDir := none, removeDir := none } = .passed :=
  ⟨by decide,
   ((importExport_round_trip exampleApplication exampleSDK).2 4).2.1.trans (by decide),
   (((importExport_round_trip exampleApplication exampleSDK).2 4).2.2.2
      false none none none).2 ⟨rfl, rfl, rfl⟩⟩

end Simulation

namespace Ledger
open Peggy (Bytes)

theorem totalPower_append (s : Services) (vs : List Validator) (v : Validator) :
    totalPower s (vs ++ [v]) = totalPower s vs + s.votingPower v := by
  simp [totalPower]

theorem find?_quorum_none (q : Nat) (l : List Attestation)
    (h : ∀ a ∈ l, a.accumulatedPower < q) :
    l.find? (fun a => decide (q ≤ a.accumulatedPower)) = none := by
  rw [List.find?_eq_none]
  intro a ha
  have := h a ha
  simp only [decide_eq_true_eq]
  omega

theorem TryFinalize_of_inv (s : Services) (st : State) (n : Nat) (h : Inv s st) :
    TryFinalize s st n = st := by
  unfold TryFinalize
  split
  · rfl
  · rw [find?_quorum_none s.quorum st.tracked (fun a ha => (h.1 a ha).2)]

theorem addVote_counted (s : Services) (st : State) (c : Claim) (v : Validator)
    (hn : c.eventNonce = st.lastProcessed + 1) (l : List Attestation)
    (hl : ∀ a ∈ l, Counted s st a) (hv : ∀ a ∈ l, v ∉ a.attesters) :
    ∀ a ∈ addVote c v (s.votingPower v) l, Counted s st a := by
  induction l with
  | nil =>
    intro a ha
    simp only [addVote, List.mem_singleton] at ha
    subst ha
    exact ⟨hn, rfl, by simp [totalPower], by simp⟩
  | cons b rest ih =>
    intro a ha
    unfold addVote at ha
    have hb := hl b (List.mem_cons_self _ _)
    split at ha
    · rcases List.mem_cons.1 ha with ha | ha
      · subst ha
        refine ⟨hb.1, hb.2.1, ?_, ?_⟩
        · simp only [totalPower_append, hb.2.2.1]
        · exact List.Nodup.append hb.2.2.2 (by simp) (by
            simpa using hv b (List.mem_cons_self _ _))
      · exact hl a (List.mem_cons_of_mem _ ha)
    · rcases List.mem_cons.1 ha with ha | ha
      · subst ha
        exact hb
      · exact ih (fun x hx => hl x (List.mem_cons_of_mem _ hx))
          (fun x hx => hv x (List.mem_cons_of_mem _ hx)) a ha

theorem handleSubmitClaim_inv (s : Services) (st : State) (c : Claim) (h : Inv s st) :
    Inv s (handleSubmitClaim s st c) := by
  unfold handleSubmitClaim SubmitClaim
  split
  · split at * <;> simp_all
  · rename_i st1 heq
    split at heq
    · cases heq
    · rename_i v hv
      split at heq
      · split at heq <;> cases heq
      · split at heq
        · cases heq
        · rename_i hle hlt
          have hn : c.eventNonce = st.lastProcessed + 1 := by omega
          split at heq
          · cases heq
            rw [TryFinalize_of_inv s st _ h]
            exact h
          · rename_i hany
            cases heq
            have hcount : ∀ a ∈ addVote c v (s.votingPower v) st.tracked, Counted s st a :=
              addVote_counted s st c v hn st.tracked (fun a ha => (h.1 a ha).1) (by
                intro a ha hva
                apply hany
                simp only [List.any_eq_true, decide_eq_true_eq]
                exact ⟨a, ha, hva⟩)
            unfold TryFinalize
            simp only [hn, ne_eq, not_true_eq_false, if_false]
            split
            · rename_i hnone
              rw [List.find?_eq_none] at hnone
              refine ⟨fun a ha => ⟨hcount a ha, ?_⟩, h.2⟩
              have := hnone a ha
              simp only [decide_eq_true_eq] at this
              omega
            · rename_i a hsome
              have hq : s.quorum ≤ a.accumulatedPower := by
                simpa using List.find?_some hsome
              have hc := hcount a (List.mem_of_find?_eq_some hsome)
              refine ⟨fun x hx => absurd hx (List.not_mem_nil x), fun x hx => ?_⟩
              rcases List.mem_append.1 hx with hx | hx
              · obtain ⟨h1, h2⟩ := h.2 x hx
                exact ⟨by simp only; omega, h2⟩
              · rw [List.mem_singleton] at hx
                subst hx
                have hc1 := hc.1
                exact ⟨by simp only; omega, rfl, hq, hc.2.2.1, hc.2.2.2⟩

theorem submitAll_inv (s : Services) (cs : List Claim) :
    ∀ st, Inv s st → Inv s (submitAll s st cs) := by
  induction cs with
  | nil => exact fun _ h => h
  | cons c rest ih =>
    intro st h
    exact ih _ (handleSubmitClaim_inv s st c h)

theorem initial_inv (s : Services) (n0 : Nat) : Inv s (initial n0) :=
  ⟨fun a ha => absurd ha (List.not_mem_nil a), fun a ha => absurd ha (List.not_mem_nil a)⟩

theorem handle_of_processed (s : Services) (st : State) (c : Claim)
    (hle : c.eventNonce ≤ st.lastProcessed) : handleSubmitClaim s st c = st := by
  unfold handleSubmitClaim SubmitClaim
  cases s.resolveValidator c.attester with
  | none => rfl
  | some v =>
    simp only [hle, if_true]
    by_cases hc : (st.finalized.any fun a =>
        decide (a.eventNonce = c.eventNonce ∧ a.payloadHash ≠ c.payloadHash)) = true
    · rw [if_pos hc]
    · rw [if_neg hc]

theorem handle_of_unresolved (s : Services) (st : State) (c : Claim)
    (hv : s.resolveValidator c.attester = none) : handleSubmitClaim s st c = st := by
  unfold handleSubmitClaim SubmitClaim
  rw [hv]

theorem handle_of_voted (s : Services) (st : State) (c : Claim) (v : Validator)
    (hv : s.resolveValidator c.attester = some v) (hn : c.eventNonce = st.lastProcessed + 1)
    (hany : st.tracked.any (fun a => decide (v ∈ a.attesters)) = true) :
    handleSubmitClaim s st c = TryFinalize s st c.eventNonce := by
  unfold handleSubmitClaim SubmitClaim
  have hle : ¬ c.eventNonce ≤ st.lastProcessed := by omega
  have hlt : ¬ st.lastProcessed + 1 < c.eventNonce := by omega
  simp only [hv, hle, hlt, hany, if_false, if_true]

theorem handle_of_new (s : Services) (st : State) (c : Claim) (v : Validator)
    (hv : s.resolveValidator c.attester = some v) (hn : c.eventNonce = st.lastProcessed + 1)
    (hany : st.tracked.any (fun a => decide (v ∈ a.attesters)) = false) :
    handleSubmitClaim s st c =
      TryFinalize s { st with tracked := addVote c v (s.votingPower v) st.tracked }
        c.eventNonce := by
  unfold handleSubmitClaim SubmitClaim
  have hle : ¬ c.eventNonce ≤ st.lastProcessed := by omega
  have hlt : ¬ st.lastProcessed + 1 < c.eventNonce := by omega
  simp only [hv, hle, hlt, hany, if_false, Bool.false_eq_true]

theorem TryFinalize_none (s : Services) (st : State)
    (h : st.tracked.find? (fun a => decide (s.quorum ≤ a.accumulatedPower)) = none) :
    TryFinalize s st (st.lastProcessed + 1) = st := by
  unfold TryFinalize
  simp only [ne_eq, not_true_eq_false, if_false, h]

theorem TryFinalize_some (s : Services) (st : State) (a : Attestation)
    (h : st.tracked.find? (fun a => decide (s.quorum ≤ a.accumulatedPower)) = some a) :
    TryFinalize s st (st.lastProcessed + 1) =
      { lastProcessed := st.lastProcessed + 1
        tracked := []
        finalized := st.finalized ++ [{ a with finalized := true }]
        applied := st.applied ++ [(st.lastProcessed + 1, a.payloadHash)] } := by
  unfold TryFinalize
  simp only [ne_eq, not_true_eq_false, if_false, h]

theorem handleSubmitClaim_duplicate (s : Services) (st : State) (c : Claim) (v : Validator)
    (hinv : Inv s st) (hv : s.resolveValidator c.attester = some v)
    (hdup : ∃ a, (a ∈ st.tracked ∨ a ∈ st.finalized) ∧ a.eventNonce = c.eventNonce ∧
      v ∈ a.attesters) :
    handleSubmitClaim s st c = st := by
  obtain ⟨a, ha, hn, hva⟩ := hdup
  rcases ha with ha | ha
  · have h1 := (hinv.1 a ha).1.1
    have hany : st.tracked.any (fun a => decide (v ∈ a.attesters)) = true := by
      simp only [List.any_eq_true, decide_eq_true_eq]
      exact ⟨a, ha, hva⟩
    rw [handle_of_voted s st c v hv (by omega) hany]
    exact TryFinalize_of_inv s st _ hinv
  · have h1 := (hinv.2 a ha).1
    exact handle_of_processed s st c (by omega)

theorem totalPower_perm (s : Services) {vs ws : List Validator} (h : vs.Perm ws) :
    totalPower s vs = totalPower s ws :=
  (h.map s.votingPower).sum_eq

theorem totalPower_le_of_subset (s : Services) {vs ws : List Validator} (hnd : vs.Nodup)
    (hsub : vs ⊆ ws) : totalPower s vs ≤ totalPower s ws := by
  obtain ⟨l, hl, hsl⟩ := List.subperm_of_subset hnd hsub
  rw [← totalPower_perm s hl]
  exact List.Sublist.sum_le_sum (hsl.map s.votingPower) (fun _ _ => Nat.zero_le _)

theorem handleSubmitClaim_single (s : Services) (n0 : Nat) (h : Bytes)
    (seen : List Validator) (st : State) (c : Claim) (hinv : SingleInv s n0 h seen st)
    (hn : c.eventNonce = n0 + 1) (hh : c.payloadHash = h) :
    SingleInv s n0 h (seen ++ (s.resolveValidator c.attester).toList)
      (handleSubmitClaim s st c) := by
  cases hv : s.resolveValidator c.attester with
  | none =>
    rw [handle_of_unresolved s st c hv]
    simpa using hinv
  | some v =>
    simp only [Option.toList]
    rcases hinv with ⟨hlast, hfin, htr⟩ | ⟨hlast, htr, vs, hfin, hnd, hsub, hne, hq⟩
    · have hn' : c.eventNonce = st.lastProcessed + 1 := by omega
      rcases htr with ⟨hseen, htr⟩ | ⟨vs, htr, hnd, hmem, hne, hq⟩
      · subst hseen
        have hany : st.tracked.any (fun a => decide (v ∈ a.attesters)) = false := by
          simp [htr]
        rw [handle_of_new s st c v hv hn' hany, hn', htr]
        simp only [addVote]
        by_cases hqv : s.quorum ≤ s.votingPower v
        · rw [TryFinalize_some s _ ⟨c.eventNonce, c.payloadHash, [v], s.votingPower v, false⟩
            (by simp [hqv])]
          right
          refine ⟨by simp only; omega, rfl, [v], ?_, by simp, by simp, by simp,
            by simpa [totalPower] using hqv⟩
          simp [hfin, hn, hh, totalPower]
        · rw [TryFinalize_none s _ (by simp [hqv])]
          left
          refine ⟨hlast, hfin, Or.inr ⟨[v], ?_, by simp, by simp, by simp,
            by simpa [totalPower] using hqv⟩⟩
          simp [hn, hh, totalPower]
      · by_cases hvs : v ∈ vs
        · have hany : st.tracked.any (fun a => decide (v ∈ a.attesters)) = true := by
            simp [htr, hvs]
          have hfind : st.tracked.find? (fun a => decide (s.quorum ≤ a.accumulatedPower)) =
              none := by
            have : ¬ s.quorum ≤ totalPower s vs := by omega
            simp [htr, this]
          rw [handle_of_voted s st c v hv hn' hany, hn', TryFinalize_none s st hfind]
          left
          refine ⟨hlast, hfin, Or.inr ⟨vs, htr, hnd, fun w => ?_, hne, hq⟩⟩
          rw [List.mem_append, List.mem_singleton, hmem]
          constructor
          · exact Or.inl
          · rintro (hw | rfl)
            · exact hw
            · exact (hmem _).1 hvs
        · have hany : st.tracked.any (fun a => decide (v ∈ a.attesters)) = false := by
            simp [htr, hvs]
          have hnd' : (vs ++ [v]).Nodup := List.Nodup.append hnd (by simp) (by simpa using hvs)
          have hmem' : ∀ w, w ∈ vs ++ [v] ↔ w ∈ seen ++ [v] := by
            intro w
            simp only [List.mem_append, List.mem_singleton, hmem]
          have hadd : addVote c v (s.votingPower v) st.tracked =
              [⟨n0 + 1, h, vs ++ [v], totalPower s (vs ++ [v]), false⟩] := by
            rw [htr]
            simp [addVote, hh, totalPower_append]
          rw [handle_of_new s st c v hv hn' hany, hn', hadd]
          by_cases hqv : s.quorum ≤ totalPower s (vs ++ [v])
          · rw [TryFinalize_some s _ ⟨n0 + 1, h, vs ++ [v], totalPower s (vs ++ [v]), false⟩
              (by simp [hqv])]
            right
            refine ⟨by simp only; omega, rfl, vs ++ [v], ?_, hnd',
              fun w hw => (hmem' w).1 hw, by simp, hqv⟩
            simp [hfin]
          · rw [TryFinalize_none s _ (by simp [hqv])]
            left
            exact ⟨hlast, hfin, Or.inr ⟨vs ++ [v], rfl, hnd', hmem', by simp, by omega⟩⟩
    · rw [handle_of_processed s st c (by omega)]
      exact Or.inr ⟨hlast, htr, vs, hfin, hnd,
        fun w hw => List.mem_append_left _ (hsub w hw), hne, hq⟩

theorem submitAll_single (s : Services) (n0 : Nat) (h : Bytes) (cs : List Claim) :
    ∀ (seen : List Validator) (st : State), SingleInv s n0 h seen st →
      (∀ c ∈ cs, c.eventNonce = n0 + 1 ∧ c.payloadHash = h) →
      SingleInv s n0 h (seen ++ cs.filterMap (fun c => s.resolveValidator c.attester))
        (submitAll s st cs) := by
  induction cs with
  | nil =>
    intro seen st hinv _
    simpa [submitAll] using hinv
  | cons c rest ih =>
    intro seen st hinv hcs
    have hc := hcs c (List.mem_cons_self _ _)
    have h1 := handleSubmitClaim_single s n0 h seen st c hinv hc.1 hc.2
    have h2 := ih _ _ h1 (fun x hx => hcs x (List.mem_cons_of_mem _ hx))
    have e : seen ++ (s.resolveValidator c.attester).toList ++
        rest.filterMap (fun c => s.resolveValidator c.attester) =
        seen ++ (c :: rest).filterMap (fun c => s.resolveValidator c.attester) := by
      rw [List.filterMap_cons]
      cases s.resolveValidator c.attester <;> simp
    rw [e] at h2
    exact h2

theorem isFinalized_iff_of_single (s : Services) (n0 : Nat) (h : Bytes) (cs : List Claim)
    (hcs : ∀ c ∈ cs, c.eventNonce = n0 + 1 ∧ c.payloadHash = h) :
    isFinalized (submitAll s (initial n0) cs) (n0 + 1) h = true ↔
      voters s cs ≠ [] ∧ s.quorum ≤ totalPower s (voters s cs) := by
  have hinit : SingleInv s n0 h [] (initial n0) := Or.inl ⟨rfl, rfl, Or.inl ⟨rfl, rfl⟩⟩
  have hinv := submitAll_single s n0 h cs [] (initial n0) hinit hcs
  rw [List.nil_append] at hinv
  have hvnd : (voters s cs).Nodup := List.nodup_dedup _
  have hvmem : ∀ v, v ∈ voters s cs ↔
      v ∈ cs.filterMap (fun c => s.resolveValidator c.attester) := fun v => List.mem_dedup
  rcases hinv with ⟨-, hfin, htr⟩ | ⟨-, -, vs, hfin, hnd, hsub, hne, hq⟩
  · have hnot : isFinalized (submitAll s (initial n0) cs) (n0 + 1) h = false := by
      simp [isFinalized, hfin]
    rw [hnot]
    constructor
    · intro hf
      cases hf
    · rintro ⟨hne, hq⟩
      exfalso
      rcases htr with ⟨hseen, -⟩ | ⟨vs, -, hnd, hmem, -, hlt⟩
      · apply hne
        unfold voters
        rw [hseen]
        rfl
      · have hperm : vs.Perm (voters s cs) :=
          (List.perm_ext_iff_of_nodup hnd hvnd).2 (fun v => by rw [hmem, hvmem])
        rw [← totalPower_perm s hperm] at hq
        omega
  · have hyes : isFinalized (submitAll s (initial n0) cs) (n0 + 1) h = true := by
      simp [isFinalized, hfin]
    rw [hyes]
    refine ⟨fun _ => ⟨?_, ?_⟩, fun _ => rfl⟩
    · obtain ⟨v, hv⟩ := List.exists_mem_of_ne_nil vs hne
      exact List.ne_nil_of_mem ((hvmem v).2 (hsub v hv))
    · exact le_trans hq (totalPower_le_of_subset s hnd (fun v hv => (hvmem v).2 (hsub v hv)))

/-- C8: for every sequence of claim transactions, an attestation of the ledger is finalized
if and only if its accumulated power is at least the quorum, and that power is the summed
voting power of its attesters, who are distinct validators; a vote by a validator who has
already voted on the nonce leaves the state, hence the accumulated power, unchanged; and for
every sequence of claims on one event nonce with one payload hash, the attestation is
finalized if and only if some validator voted and the summed voting power of the distinct
validators that voted is at least the quorum. -/
theorem finalized_iff_quorum (s : Services) (n0 : Nat) (cs : List Claim) :
    (∀ a, a ∈ (submitAll s (initial n0) cs).tracked ∨
        a ∈ (submitAll s (initial n0) cs).finalized →
      (a.finalized = true ↔ s.quorum ≤ a.accumulatedPower) ∧
      (a.finalized = true ↔ a ∈ (submitAll s (initial n0) cs).finalized) ∧
      a.accumulatedPower = totalPower s a.attesters ∧ a.attesters.Nodup) ∧
    (∀ c v, s.resolveValidator c.attester = some v →
      (∃ a, (a ∈ (submitAll s (initial n0) cs).tracked ∨
          a ∈ (submitAll s (initial n0) cs).finalized) ∧
        a.eventNonce = c.eventNonce ∧ v ∈ a.attesters) →
      handleSubmitClaim s (submitAll s (initial n0) cs) c = submitAll s (initial n0) cs) ∧
    (∀ h, (∀ c ∈ cs, c.eventNonce = n0 + 1 ∧ c.payloadHash = h) →
      (isFinalized (submitAll s (initial n0) cs) (n0 + 1) h = true ↔
        voters s cs ≠ [] ∧ s.quorum ≤ totalPower s (voters s cs))) := by
  have hinv := submitAll_inv s cs (initial n0) (initial_inv s n0)
  refine ⟨?_, fun c v hv hdup => handleSubmitClaim_duplicate s _ c v hinv hv hdup,
    fun h hcs => isFinalized_iff_of_single s n0 h cs hcs⟩
  rintro a (ha | ha)
  · obtain ⟨⟨-, hf, hp, hnd⟩, hlt⟩ := hinv.1 a ha
    refine ⟨?_, ?_, hp, hnd⟩
    · rw [hf]
      constructor
      · intro h
        cases h
      · intro h
        omega
    · rw [hf]
      constructor
      · intro h
        cases h
      · intro h
        have := (hinv.2 a h).2.1
        rw [hf] at this
        exact this
  · obtain ⟨-, hf, hq, hp, hnd⟩ := hinv.2 a ha
    exact ⟨⟨fun _ => hq, fun _ => hf⟩, ⟨fun _ => ha, fun _ => hf⟩, hp, hnd⟩

/-- C8, the scenario: powers 40, 30, 30 and quorum 67. After the first vote nothing is
finalized, after the second the attestation is finalized with power 70, and the third vote
leaves the state unchanged. -/
theorem finalized_iff_quorum_witness :
    (∀ c ∈ [scenarioClaim 11, scenarioClaim 12], c.eventNonce = 0 + 1 ∧ c.payloadHash = [0xab]) ∧
    isFinalized (submitAll scenario (initial 0) [scenarioClaim 11]) 1 [0xab] = false ∧
    isFinalized (submitAll scenario (initial 0) [scenarioClaim 11, scenarioClaim 12]) 1 [0xab] =
      true ∧
    (submitAll scenario (initial 0) [scenarioClaim 11, scenarioClaim 12]).finalized =
      [⟨1, [0xab], [1, 2], 70, true⟩] ∧
    handleSubmitClaim scenario
      (submitAll scenario (initial 0) [scenarioClaim 11, scenarioClaim 12]) (scenarioClaim 13) =
      submitAll scenario (initial 0) [scenarioClaim 11, scenarioClaim 12] :=
  ⟨by decide, by decide,
   ((finalized_iff_quorum scenario 0 [scenarioClaim 11, scenarioClaim 12]).2.2 [0xab]
      (by decide)).2 (by decide),
   by decide, by decide⟩

end Ledger
